import Mathlib

/-!
# Verification of the smartmetal extraction pipelines

Shallow embedding of `scripts/extraction/extract_asme_b165.py` (flange
pipeline) and `scripts/extraction/extract_asme_b3610.py` (pipe pipeline).

Modelling conventions:
* a raw table cell is `Option String`: `none` models Python `None` / pandas
  `NaN`, `some s` models a string cell (the claims only exercise string
  cells, so `str(val)` is the identity on the modelled values);
* Python float values are modelled exactly on ASCII: `float(...)`
  parses the CPython grammar (optional sign, digit runs with PEP 515
  underscores, fraction, exponent, and the special `inf`/`infinity`/`nan`
  names, case-insensitive) and rounds the exact decimal value to IEEE
  binary64 (round to nearest, ties to even, overflow to infinity); a
  finite double is carried as its exact rational value
  (`PyFloat.finite`), infinities and NaN as `PyFloat.inf`/`PyFloat.nan`;
* an uncaught Python exception — the OverflowError of `int(float_value)`
  on an infinite value, which `except ValueError` does not catch, the
  ValueError of `int` on NaN where nothing catches it, and the
  IndexError of `df.iloc[0]` on an all-NaN table — is modelled by
  `PyRes.exc`; every code fragment that can raise returns a `PyRes`;
* records (Python dicts) are association lists `List (String × Val)` in
  the literal key order of the source, so the presence or absence of a
  key is directly statable;
* string functions (`lower`, `upper`, `strip`, `isdigit`) are modelled on
  ASCII, which covers every keyword and cell the pipelines compare.
-/

namespace SmartMetal

/-! ## Characters and strings: Python primitives -/

/-- ASCII decimal digit test (models `str.isdigit` char class on ASCII). -/
def isDigitB (c : Char) : Bool := 48 ≤ c.toNat && c.toNat ≤ 57

/-- Python whitespace characters stripped by `str.strip()`. -/
def isSpaceB (c : Char) : Bool :=
  c = ' ' || c = '\t' || c = '\n' || c = '\r' || c.toNat = 11 || c.toNat = 12

/-- ASCII lower-casing of one character (models `str.lower` on ASCII). -/
def asciiLower (c : Char) : Char :=
  if 65 ≤ c.toNat && c.toNat ≤ 90 then Char.ofNat (c.toNat + 32) else c

/-- ASCII upper-casing of one character (models `str.upper` on ASCII). -/
def asciiUpper (c : Char) : Char :=
  if 97 ≤ c.toNat && c.toNat ≤ 122 then Char.ofNat (c.toNat - 32) else c

/-- `s.lower()` on ASCII. -/
def lowerStr (s : String) : String := ⟨s.data.map asciiLower⟩

/-- `s.upper()` on ASCII. -/
def upperStr (s : String) : String := ⟨s.data.map asciiUpper⟩

/-- `s.strip()`: drop leading and trailing whitespace. -/
def stripStr (s : String) : String :=
  ⟨((s.data.dropWhile isSpaceB).reverse.dropWhile isSpaceB).reverse⟩

/-- `s.replace(c, "")`: delete every occurrence of character `c`. -/
def removeAllChar (s : String) (c : Char) : String :=
  ⟨s.data.filter (fun d => d ≠ c)⟩

/-- Delete the first occurrence of character `c` (models `s.replace(c, "", 1)`). -/
def removeFirstChar (s : String) (c : Char) : String :=
  ⟨removeFirstAux s.data⟩
where
  removeFirstAux : List Char → List Char
    | [] => []
    | d :: ds => if d = c then ds else d :: removeFirstAux ds

/-- `needle` is a prefix of `hay` (character lists). -/
def leadsB : List Char → List Char → Bool
  | [], _ => true
  | _ :: _, [] => false
  | a :: as, b :: bs => a = b && leadsB as bs

/-- `needle` occurs as a contiguous segment of `hay` (character lists). -/
def hasSeg (needle : List Char) : List Char → Bool
  | [] => leadsB needle []
  | b :: bs => leadsB needle (b :: bs) || hasSeg needle bs

/-- Python `needle in hay` substring test. -/
def strHas (hay needle : String) : Bool := hasSeg needle.data hay.data

/-- Python `hay.startswith(needle)`. -/
def strStarts (hay needle : String) : Bool := leadsB needle.data hay.data

/-- `" ".join(parts)`. -/
def joinSpace (parts : List String) : String := String.intercalate " " parts

/-- Python `s.isdigit()` restricted to ASCII digits. -/
def pyIsdigit (s : String) : Bool := s ≠ "" && s.data.all isDigitB

/-! ## Python floats

A CPython float is an IEEE binary64 value.  `float(string)` parses the
decimal grammar and rounds the exact decimal value to the nearest double
(ties to even), overflowing to infinity; `int(float_value)` truncates a
finite double toward zero, raises ValueError on NaN, and raises
OverflowError on an infinite value.  The model below implements exactly
that: a finite double is carried as its exact (dyadic) rational value. -/

/-- A Python float value: a finite binary64 (carried as its exact
rational value), a signed infinity, or NaN. -/
inductive PyFloat where
  | finite : ℚ → PyFloat
  | inf : Bool → PyFloat
  | nan : PyFloat
  deriving DecidableEq, Repr

/-- The result of running a code fragment: a normal value, or an uncaught
Python exception named by its class. -/
inductive PyRes (α : Type) where
  | ok : α → PyRes α
  | exc : String → PyRes α
  deriving DecidableEq, Repr

/-- Value of a digit list read in base 10. -/
def natFromDigits (l : List Char) : ℕ :=
  l.foldl (fun a c => 10 * a + (c.toNat - 48)) 0

/-- Tail of a digit run: digits, where each `_` must be followed (and, by
construction of `cleanDigits?`, preceded) by a digit — PEP 515. -/
def digitTail? : List Char → Option (List Char)
  | [] => some []
  | '_' :: c :: cs => if isDigitB c then (digitTail? cs).map (c :: ·) else none
  | c :: cs => if isDigitB c then (digitTail? cs).map (c :: ·) else none

/-- A non-empty digit run with PEP 515 underscores; returns the digits
with underscores removed, `none` if the run is malformed. -/
def cleanDigits? : List Char → Option (List Char)
  | [] => none
  | c :: cs => if isDigitB c then (digitTail? cs).map (c :: ·) else none

/-- An optional digit run (the integer or fraction part of a float
literal may be empty). -/
def sideDigits? (l : List Char) : Option (List Char) :=
  if l = [] then some [] else cleanDigits? l

/-- The mantissa `digits[.digits]` of a float literal: its digits as a
natural number and the power-of-ten shift of the fraction part. -/
def parseMant? (l : List Char) : Option (ℕ × ℤ) :=
  match l.splitOn '.' with
  | [w] => (cleanDigits? w).map (fun d => (natFromDigits d, (0 : ℤ)))
  | [w, f] =>
      if w = [] && f = [] then none
      else
        match sideDigits? w, sideDigits? f with
        | some dw, some df => some (natFromDigits (dw ++ df), -(df.length : ℤ))
        | _, _ => none
  | _ => none

/-- The exponent part of a float literal: an optionally signed digit
run. -/
def parseExp? : List Char → Option ℤ
  | '+' :: r => (cleanDigits? r).map (fun d => (natFromDigits d : ℤ))
  | '-' :: r => (cleanDigits? r).map (fun d => -(natFromDigits d : ℤ))
  | r => (cleanDigits? r).map (fun d => (natFromDigits d : ℤ))

/-- An unsigned parsed float literal: the exact decimal value `m × 10^e`,
infinity, or NaN. -/
inductive PyNum where
  | val : ℕ → ℤ → PyNum
  | pinf : PyNum
  | pnan : PyNum

/-- The unsigned body of a float literal: the special names
`inf`/`infinity`/`nan` (case-insensitive), else
`digits[.digits][(e|E)[sign]digits]`. -/
def pyFloatBody? (l : List Char) : Option PyNum :=
  let low := l.map asciiLower
  if low = "inf".data || low = "infinity".data then some .pinf
  else if low = "nan".data then some .pnan
  else
    match (l.map (fun c => if c = 'E' then 'e' else c)).splitOn 'e' with
    | [mant] => (parseMant? mant).map (fun p => PyNum.val p.1 p.2)
    | [mant, ex] =>
        match parseMant? mant, parseExp? ex with
        | some p, some x => some (.val p.1 (p.2 + x))
        | _, _ => none
    | _ => none

/-- Binary length of a positive natural (fuel-based recursion, so the
kernel can evaluate it): `2 ^ (bitLen n - 1) ≤ n < 2 ^ bitLen n`. -/
def bitLenAux : ℕ → ℕ → ℕ
  | 0, _ => 0
  | fuel + 1, n => if n ≤ 1 then 1 else bitLenAux fuel (n / 2) + 1

/-- Binary length of a positive natural. -/
def bitLen (n : ℕ) : ℕ := bitLenAux n n

/-- Decimal length of a positive natural (fuel-based). -/
def decLenAux : ℕ → ℕ → ℕ
  | 0, _ => 0
  | fuel + 1, n => if n ≤ 9 then 1 else decLenAux fuel (n / 10) + 1

/-- Decimal length of a positive natural. -/
def decLen (n : ℕ) : ℕ := decLenAux n n

/-- Round `n / d` (both positive) to the nearest natural, ties to even. -/
def rdivNE (n d : ℕ) : ℕ :=
  let q := n / d
  let r := n % d
  if 2 * r < d then q
  else if d < 2 * r then q + 1
  else if q % 2 = 0 then q else q + 1

/-- Decide `2 ^ e ≤ n / d` for positive `n d` and an integer `e`. -/
def geTwoPow (n d : ℕ) (e : ℤ) : Bool :=
  if 0 ≤ e then decide (d * 2 ^ e.toNat ≤ n) else decide (d ≤ n * 2 ^ (-e).toNat)

/-- IEEE binary64 round-to-nearest-even of the positive rational `n / d`:
its exact dyadic value (normal or subnormal, possibly zero), or `none`
on overflow to infinity. -/
def ieeeRound (n d : ℕ) : Option ℚ :=
  let L : ℤ := (bitLen n : ℤ) - (bitLen d : ℤ)
  let e : ℤ := if geTwoPow n d L then L else L - 1
  if e < -1022 then
    some (mkRat (rdivNE (n * 2 ^ 1074) d) (2 ^ 1074))
  else
    let m : ℕ :=
      if 0 ≤ 52 - e then rdivNE (n * 2 ^ (52 - e).toNat) d
      else rdivNE n (d * 2 ^ (e - 52).toNat)
    let m2 : ℕ := if m = 2 ^ 53 then 2 ^ 52 else m
    let e2 : ℤ := if m = 2 ^ 53 then e + 1 else e
    if 1023 < e2 then none
    else if 0 ≤ e2 - 52 then some (mkRat (m2 * 2 ^ (e2 - 52).toNat) 1)
    else some (mkRat m2 (2 ^ (52 - e2).toNat))

/-- Round the non-negative decimal value `m × 10^e` to binary64; `none`
is overflow to infinity.  Values of at least `10^309` overflow (the
largest double is about `1.798 × 10^308`) and values below `10^-324`
round to zero (half the smallest subnormal is about `2.47 × 10^-324`),
so only the in-range band is computed exactly. -/
def roundDec (m : ℕ) (e : ℤ) : Option ℚ :=
  if m = 0 then some (mkRat 0 1)
  else
    let dexp : ℤ := e + decLen m
    if 310 ≤ dexp then none
    else if dexp ≤ -324 then some (mkRat 0 1)
    else if 0 ≤ e then ieeeRound (m * 10 ^ e.toNat) 1
    else ieeeRound m (10 ^ (-e).toNat)

/-- Attach the sign and round a parsed literal to a Python float. -/
def applySign (neg : Bool) : PyNum → PyFloat
  | .val m e =>
      match roundDec m e with
      | none => .inf neg
      | some q => .finite (if neg then -q else q)
  | .pinf => .inf neg
  | .pnan => .nan

/-- Python `float(s)` on ASCII input (the callers always strip
whitespace first): `none` models the ValueError raised on a malformed
literal. -/
def pyFloat? (s : String) : Option PyFloat :=
  match s.data with
  | '-' :: rest => (pyFloatBody? rest).map (applySign true)
  | '+' :: rest => (pyFloatBody? rest).map (applySign false)
  | l => (pyFloatBody? l).map (applySign false)

/-- Truncation toward zero of a finite double, the semantics of Python
`int(float_value)` there: `Int.tdiv` is truncated division. -/
def ratTrunc (q : ℚ) : ℤ := q.num.tdiv q.den

/-! ## Cells, values and records -/

/-- One raw table cell: `none` is `None`/NaN, `some s` a string cell. -/
abbrev RawCell := Option String

/-- A Python value stored in an output record: `rat` is a finite double
(its exact rational value), `infv`/`nanv` the non-finite doubles.  Two
NaN values compare equal, the convention pandas `drop_duplicates` uses
for NaN keys. -/
inductive Val where
  | null : Val
  | str : String → Val
  | rat : ℚ → Val
  | int : ℤ → Val
  | bool : Bool → Val
  | infv : Bool → Val
  | nanv : Val
  deriving DecidableEq, Repr

/-- `None`-or-float as stored in a record. -/
def optFloat : Option PyFloat → Val
  | none => .null
  | some (.finite q) => .rat q
  | some (.inf b) => .infv b
  | some .nan => .nanv

/-- `None`-or-int as stored in a record. -/
def optInt : Option ℤ → Val
  | none => .null
  | some n => .int n

/-- `None`-or-string as stored in a record. -/
def optStr : Option String → Val
  | none => .null
  | some s => .str s

/-- An output record: the Python dict in literal key order. -/
abbrev Rec := List (String × Val)

/-- Python `d[k] = v` for a key already present: update in place. -/
def setKey (r : Rec) (k : String) (v : Val) : Rec :=
  r.map (fun p => if p.1 = k then (k, v) else p)

/-- Dict lookup on a record. -/
def lookupVal (r : Rec) (k : String) : Option Val :=
  match r with
  | [] => none
  | p :: ps => if p.1 = k then some p.2 else lookupVal ps k

/-! ## Shared table helpers (`normalise_header`, `get`, coercions) -/

/-- `normalise_header`: NaN cells become `""`, strings are stripped. -/
def normaliseHeader (cols : List RawCell) : List String :=
  cols.map (fun c =>
    match c with
    | none => ""
    | some s => stripStr s)

/-- The row-local `get(col_key)`: `None` when the column is unresolved,
out of bounds for this row, or NaN; otherwise the stripped cell text. -/
def getCell (vals : List RawCell) : Option ℕ → Option String
  | none => none
  | some idx =>
    if vals.length ≤ idx then none
    else
      match vals.getD idx none with
      | none => none
      | some v => some (stripStr v)

/-- `to_float`: drop commas, strip, parse as float; `None` on a
ValueError.  `float()` on a string only raises ValueError, so `to_float`
never raises — but it can return an infinity or NaN value. -/
def toFloatM (x : Option String) : Option PyFloat :=
  match x with
  | none => none
  | some s => pyFloat? (stripStr (removeAllChar s ','))

/-- `to_int` (flange script): drop commas, strip, `int(float(s))` under
`except ValueError`.  The parse failure and the ValueError of `int` on
NaN are caught and yield `None`; the OverflowError of `int` on an
infinite value is NOT a ValueError and propagates. -/
def toIntM (x : Option String) : PyRes (Option ℤ) :=
  match x with
  | none => .ok none
  | some s =>
      match pyFloat? (stripStr (removeAllChar s ',')) with
      | none => .ok none
      | some (.finite q) => .ok (some (ratTrunc q))
      | some .nan => .ok none
      | some (.inf _) => .exc "OverflowError"

/-- Python `x or default` on an optional string (`None` and `""` are falsy). -/
def pyOrStr (x : Option String) (d : String) : String :=
  match x with
  | none => d
  | some s => if s = "" then d else s

/-- The pipe script's dn coercion:
`int(float(dn_val)) if dn_val and dn_val.replace(".", "", 1).isdigit() else None`.
There is no try/except here: a digit string long enough to overflow the
float range (309 or more digits) passes the `isdigit` guard, rounds to
infinity, and `int` raises an uncaught OverflowError.  (Under the ASCII
guard the parse itself cannot fail or yield NaN; those branches are
modelled as the exceptions `int(float(...))` would propagate.) -/
def pyDnInt (dn_val : Option String) : PyRes (Option ℤ) :=
  match dn_val with
  | none => .ok none
  | some s =>
      if s ≠ "" && pyIsdigit (removeFirstChar s '.') then
        match pyFloat? s with
        | some (.finite q) => .ok (some (ratTrunc q))
        | some (.inf _) => .exc "OverflowError"
        | some .nan => .exc "ValueError"
        | none => .exc "ValueError"
      else .ok none

/-! ## Table classifiers -/

/-- `looks_like_flange_table`. A table is a list of rows; `df.shape[1]`
is the length of the (rectangular) header row, `df.empty` is `[]`. -/
def looksLikeFlangeTable (df : List (List RawCell)) : Bool :=
  match df with
  | [] => false
  | hdr :: _ =>
    if hdr.length < 4 then false
    else
      let hs := joinSpace ((normaliseHeader hdr).map lowerStr)
      let hasNps := strHas hs "nps" || strHas hs "nominal pipe size"
      let hasClass := strHas hs "class" || strHas hs "rating"
      let hasOd := strHas hs "outside" || strHas hs "o.d." || strHas hs "od"
      let hasBc := strHas hs "bolt circle" || strHas hs "bc"
      hasNps && (hasClass || hasOd || hasBc)

/-- `looks_like_pipe_table`. -/
def looksLikePipeTable (df : List (List RawCell)) : Bool :=
  match df with
  | [] => false
  | hdr :: _ =>
    if hdr.length < 4 then false
    else
      let hs := joinSpace ((normaliseHeader hdr).map lowerStr)
      let hasNps := strHas hs "nps" || strHas hs "nominal pipe size"
      let hasOd := strHas hs "outside" || strHas hs "o.d." || strHas hs "od"
      let hasWall := strHas hs "wall"
      hasNps && hasOd && hasWall

/-! ## Header resolvers -/

/-- The flange `col_map`. -/
structure FlangeColMap where
  nps : Option ℕ := none
  dn : Option ℕ := none
  od : Option ℕ := none
  thickness : Option ℕ := none
  bc : Option ℕ := none
  bolt_hole_dia : Option ℕ := none
  num_bolts : Option ℕ := none
  bolt_size : Option ℕ := none
  bore : Option ℕ := none
  hub_dia : Option ℕ := none
  hub_len : Option ℕ := none
  weight : Option ℕ := none
  deriving DecidableEq, Repr

/-- The canonical flange fields, in rule order. -/
inductive FlangeField where
  | nps | dn | od | thickness | bc | boltHoleDia | numBolts | boltSize
  | bore | hubDia | hubLen | weight
  deriving DecidableEq, Repr

/-- The flange `if/elif` chain, line for line: the first rule a column
label satisfies, if any (the chain applies at most one rule per column). -/
def classifyFlange (colName : String) : Option FlangeField :=
  let lower := lowerStr colName
  if strHas lower "nps" || strHas lower "nominal" then some .nps
  else if strStarts lower "dn" then some .dn
  else if strHas lower "outside" && (strHas lower "in" || strHas lower "inch") then some .od
  else if (strHas lower "thickness" || strHas lower "thick") && (strHas lower "in" || strHas lower "inch") then some .thickness
  else if strHas lower "bolt circle" || strHas lower "bc" then some .bc
  else if strHas lower "bolt hole" || (strHas lower "bolt" && strHas lower "dia") then some .boltHoleDia
  else if (strHas lower "number" && strHas lower "bolt") || strHas lower "no. of bolts" then some .numBolts
  else if strHas lower "bolt size" || (strHas lower "bolt" && strHas lower "size") then some .boltSize
  else if strHas lower "bore" then some .bore
  else if strHas lower "hub" && strHas lower "dia" then some .hubDia
  else if strHas lower "hub" && (strHas lower "length" || strHas lower "len") then some .hubLen
  else if strHas lower "weight" && strHas lower "kg" then some .weight
  else none

/-- Write the `col_map` slot of a flange field (the assignment each
branch of the chain performs). -/
def FlangeColMap.setIdx (m : FlangeColMap) : FlangeField → ℕ → FlangeColMap
  | .nps, i => { m with nps := some i }
  | .dn, i => { m with dn := some i }
  | .od, i => { m with od := some i }
  | .thickness, i => { m with thickness := some i }
  | .bc, i => { m with bc := some i }
  | .boltHoleDia, i => { m with bolt_hole_dia := some i }
  | .numBolts, i => { m with num_bolts := some i }
  | .boltSize, i => { m with bolt_size := some i }
  | .bore, i => { m with bore := some i }
  | .hubDia, i => { m with hub_dia := some i }
  | .hubLen, i => { m with hub_len := some i }
  | .weight, i => { m with weight := some i }

/-- Read the `col_map` slot of a flange field. -/
def FlangeColMap.fieldIdx (m : FlangeColMap) : FlangeField → Option ℕ
  | .nps => m.nps
  | .dn => m.dn
  | .od => m.od
  | .thickness => m.thickness
  | .bc => m.bc
  | .boltHoleDia => m.bolt_hole_dia
  | .numBolts => m.num_bolts
  | .boltSize => m.bolt_size
  | .bore => m.bore
  | .hubDia => m.hub_dia
  | .hubLen => m.hub_len
  | .weight => m.weight

/-- One iteration of the flange header loop on column `idx` labelled
`colName`: apply the first matching rule's assignment, or leave `m`
unchanged when no rule matches. -/
def flangeStep (m : FlangeColMap) (idx : ℕ) (colName : String) : FlangeColMap :=
  match classifyFlange colName with
  | some f => m.setIdx f idx
  | none => m

/-- `for idx, col_name in enumerate(header): ...` for the flange schema:
`i` is the index of the first column of `cols`. -/
def resolveFlangeAux (i : ℕ) (m : FlangeColMap) : List String → FlangeColMap
  | [] => m
  | c :: cs => resolveFlangeAux (i + 1) (flangeStep m i c) cs

/-- Column detection for the flange schema over a whole header row. -/
def resolveFlangeHeader (header : List String) : FlangeColMap :=
  resolveFlangeAux 0 {} header

/-- The pipe `col_map`. -/
structure PipeColMap where
  nps : Option ℕ := none
  dn : Option ℕ := none
  od_in : Option ℕ := none
  od_mm : Option ℕ := none
  wall_in : Option ℕ := none
  wall_mm : Option ℕ := none
  wt_lb_ft : Option ℕ := none
  wt_kg_m : Option ℕ := none
  schedule : Option ℕ := none
  deriving DecidableEq, Repr

/-- The canonical pipe fields, in rule order. -/
inductive PipeField where
  | nps | dn | odIn | odMm | wallIn | wallMm | wtLbFt | wtKgM | schedule
  deriving DecidableEq, Repr

/-- The pipe `if/elif` chain, line for line: the first rule a column
label satisfies, if any. -/
def classifyPipe (colName : String) : Option PipeField :=
  let lower := lowerStr colName
  if strHas lower "nps" || strHas lower "nominal" then some .nps
  else if strStarts lower "dn" then some .dn
  else if strHas lower "outside" && (strHas lower "in" || strHas lower "inch") then some .odIn
  else if strHas lower "outside" && (strHas lower "mm" || strHas lower "millimeter") then some .odMm
  else if (strHas lower "wall" || strHas lower "thick") && (strHas lower "in" || strHas lower "inch") then some .wallIn
  else if (strHas lower "wall" || strHas lower "thick") && (strHas lower "mm" || strHas lower "millimeter") then some .wallMm
  else if (strHas lower "weight" || strHas lower "wt") && (strHas lower "lb" || strHas lower "lbs") then some .wtLbFt
  else if (strHas lower "weight" || strHas lower "wt") && strHas lower "kg" then some .wtKgM
  else if strHas lower "sched" || strHas lower "sch" then some .schedule
  else none

/-- Write the `col_map` slot of a pipe field. -/
def PipeColMap.setIdx (m : PipeColMap) : PipeField → ℕ → PipeColMap
  | .nps, i => { m with nps := some i }
  | .dn, i => { m with dn := some i }
  | .odIn, i => { m with od_in := some i }
  | .odMm, i => { m with od_mm := some i }
  | .wallIn, i => { m with wall_in := some i }
  | .wallMm, i => { m with wall_mm := some i }
  | .wtLbFt, i => { m with wt_lb_ft := some i }
  | .wtKgM, i => { m with wt_kg_m := some i }
  | .schedule, i => { m with schedule := some i }

/-- Read the `col_map` slot of a pipe field. -/
def PipeColMap.fieldIdx (m : PipeColMap) : PipeField → Option ℕ
  | .nps => m.nps
  | .dn => m.dn
  | .odIn => m.od_in
  | .odMm => m.od_mm
  | .wallIn => m.wall_in
  | .wallMm => m.wall_mm
  | .wtLbFt => m.wt_lb_ft
  | .wtKgM => m.wt_kg_m
  | .schedule => m.schedule

/-- One iteration of the pipe header loop. -/
def pipeStep (m : PipeColMap) (idx : ℕ) (colName : String) : PipeColMap :=
  match classifyPipe colName with
  | some f => m.setIdx f idx
  | none => m

/-- `for idx, col_name in enumerate(header): ...` for the pipe schema. -/
def resolvePipeAux (i : ℕ) (m : PipeColMap) : List String → PipeColMap
  | [] => m
  | c :: cs => resolvePipeAux (i + 1) (pipeStep m i c) cs

/-- Column detection for the pipe schema over a whole header row. -/
def resolvePipeHeader (header : List String) : PipeColMap :=
  resolvePipeAux 0 {} header

/-- Schema-generic form of the resolver loop, used to prove the resolver
lemmas once for both schemas. -/
def resolveGen {M F : Type} (classify : String → Option F) (set : M → F → ℕ → M)
    (i : ℕ) (m : M) : List String → M
  | [] => m
  | c :: cs =>
      resolveGen classify set (i + 1)
        (match classify c with
         | some f => set m f i
         | none => m) cs

/-! ## Row normalizers -/

/-- The flange output dict, in the literal key order of the source. -/
def flangeRecOf (nps_inch : Option PyFloat) (dn_mm rating : Option ℤ) (ty fc : String)
    (bore od thickness hubDia hubLen bc boltHole : Option PyFloat)
    (numBolts : Option ℤ) (boltSize : Option String) (weight : Option PyFloat) : Rec :=
  [("standard", .str "ASME B16.5-2022"),
   ("nps_inch", optFloat nps_inch),
   ("dn_mm", optInt dn_mm),
   ("rating_class", optInt rating),
   ("type", .str ty),
   ("facing", .str fc),
   ("bore_inch", optFloat bore),
   ("od_inch", optFloat od),
   ("thickness_inch", optFloat thickness),
   ("hub_diameter_inch", optFloat hubDia),
   ("hub_length_inch", optFloat hubLen),
   ("bolt_circle_inch", optFloat bc),
   ("bolt_hole_diameter_inch", optFloat boltHole),
   ("number_of_bolts", optInt numBolts),
   ("bolt_size_inch", optStr boltSize),
   ("weight_kg", optFloat weight),
   ("flange_category", .str "CS"),
   ("b165_table", .str ""),
   ("b165_page", .null),
   ("source_file", .str "ASME B16.5.pdf"),
   ("is_active", .bool true)]

/-- The body of the flange row loop: `.ok none` models `continue` (row
skipped when the NPS cell is unresolved, out of bounds, NaN, or empty),
`.exc` an exception propagating out of one of the two `to_int` calls
(which the source evaluates in dn-then-num_bolts order; the `to_float`
calls and the guarded nps coercion cannot raise). -/
def flangeRow (rating_class : Option ℤ) (flange_type facing : Option String)
    (m : FlangeColMap) (vals : List RawCell) : PyRes (Option Rec) :=
  match getCell vals m.nps with
  | none => .ok none
  | some npsRaw =>
    if npsRaw = "" then .ok none
    else
      match toIntM (getCell vals m.dn) with
      | .exc e => .exc e
      | .ok dn_mm =>
          match toIntM (getCell vals m.num_bolts) with
          | .exc e => .exc e
          | .ok numBolts =>
              let nps_clean := stripStr (removeAllChar npsRaw '"')
              .ok (some (flangeRecOf (pyFloat? nps_clean) dn_mm rating_class
                (pyOrStr flange_type "WN") (pyOrStr facing "RF")
                (toFloatM (getCell vals m.bore)) (toFloatM (getCell vals m.od))
                (toFloatM (getCell vals m.thickness)) (toFloatM (getCell vals m.hub_dia))
                (toFloatM (getCell vals m.hub_len)) (toFloatM (getCell vals m.bc))
                (toFloatM (getCell vals m.bolt_hole_dia)) numBolts
                (getCell vals m.bolt_size) (toFloatM (getCell vals m.weight))))

/-- The data-row loop shared by both parsers: skip dropped rows, and let
an exception raised in any row abort the whole call. -/
def rowsLoop (f : List RawCell → PyRes (Option Rec)) :
    List (List RawCell) → PyRes (List Rec)
  | [] => .ok []
  | v :: vs =>
      match f v with
      | .exc e => .exc e
      | .ok none => rowsLoop f vs
      | .ok (some r) =>
          match rowsLoop f vs with
          | .exc e => .exc e
          | .ok rs => .ok (r :: rs)

/-- `parse_flange_rows`: drop all-NaN rows, take the first remaining row
as header (`df.iloc[0]` raises IndexError when nothing remains — that
branch is unreachable for classifier-accepted tables), resolve columns,
normalize every data row. -/
def parseFlangeRows (df : List (List RawCell)) (rating_class : Option ℤ)
    (flange_type facing : Option String) : PyRes (List Rec) :=
  match df.filter (fun r => r.any (fun c => c.isSome)) with
  | [] => .exc "IndexError"
  | hdr :: data =>
    let m := resolveFlangeHeader (normaliseHeader hdr)
    rowsLoop (flangeRow rating_class flange_type facing m) data

/-- `pressure_series_from_schedule`. -/
def pressureSeriesFromSchedule (schedule : String) : String :=
  let sch := removeAllChar (upperStr schedule) ' '
  if sch = "STD" || sch = "40" || sch = "40S" then "STD"
  else if sch = "XS" || sch = "80" || sch = "80S" then "XS"
  else if sch = "XXS" then "XXS"
  else ""

/-- The pipe output dict, in the literal key order of the source. -/
def pipeRecOf (nps_inch : Option PyFloat) (dn_mm : Option ℤ) (odIn odMm : Option PyFloat)
    (schedule : String) (wallIn wallMm wtLb wtKg : Option PyFloat)
    (npsDisplay : String) : Rec :=
  [("standard", .str "ASME B36.10M-2022"),
   ("nps_inch", optFloat nps_inch),
   ("dn_mm", optInt dn_mm),
   ("od_inch", optFloat odIn),
   ("od_mm", optFloat odMm),
   ("schedule", .str schedule),
   ("wall_thickness_inch", optFloat wallIn),
   ("wall_thickness_mm", optFloat wallMm),
   ("weight_lb_per_ft", optFloat wtLb),
   ("weight_kg_per_m", optFloat wtKg),
   ("pipe_category", .str "CS"),
   ("pressure_series", .str (pressureSeriesFromSchedule schedule)),
   ("nps_display", .str npsDisplay),
   ("b3610_table", .str ""),
   ("b3610_page", .null),
   ("source_file", .str "ASME B36.10-2022.pdf"),
   ("is_active", .bool true)]

/-- The body of the pipe row loop; `.ok none` models `continue`, `.exc`
an exception propagating out of the unguarded dn coercion. -/
def pipeRow (m : PipeColMap) (vals : List RawCell) : PyRes (Option Rec) :=
  match getCell vals m.nps with
  | none => .ok none
  | some npsRaw =>
    if npsRaw = "" then .ok none
    else
      match pyDnInt (getCell vals m.dn) with
      | .exc e => .exc e
      | .ok dn_mm =>
          let schedule := pyOrStr (getCell vals m.schedule) ""
          let nps_clean := stripStr (removeAllChar npsRaw '"')
          .ok (some (pipeRecOf (pyFloat? nps_clean) dn_mm
            (toFloatM (getCell vals m.od_in)) (toFloatM (getCell vals m.od_mm))
            schedule
            (toFloatM (getCell vals m.wall_in)) (toFloatM (getCell vals m.wall_mm))
            (toFloatM (getCell vals m.wt_lb_ft)) (toFloatM (getCell vals m.wt_kg_m))
            (stripStr npsRaw)))

/-- `parse_pipe_rows` (same table plumbing as the flange variant). -/
def parsePipeRows (df : List (List RawCell)) : PyRes (List Rec) :=
  match df.filter (fun r => r.any (fun c => c.isSome)) with
  | [] => .exc "IndexError"
  | hdr :: data =>
    let m := resolvePipeHeader (normaliseHeader hdr)
    rowsLoop (pipeRow m) data

/-! ## Deduplication and drivers -/

/-- Single pass of pandas `drop_duplicates(subset=...)` keep-first
semantics: keep a record iff its key was not seen earlier. -/
def dedupeAux {α κ : Type} [DecidableEq κ] (key : α → κ) (seen : List κ) :
    List α → List α
  | [] => []
  | x :: xs =>
      if key x ∈ seen then dedupeAux key seen xs
      else x :: dedupeAux key (key x :: seen) xs

/-- `drop_duplicates(subset=keys)`: retain the first record of each
natural-key group, in first-occurrence order. -/
def dedupeBy {α κ : Type} [DecidableEq κ] (key : α → κ) (l : List α) : List α :=
  dedupeAux key [] l

/-- The flange natural key `(nps_inch, rating_class, type, facing)`;
missing keys and `null` components compare equal to themselves, the
NaN-equals-NaN convention pandas uses inside `drop_duplicates`. -/
def flangeKey (r : Rec) : Option Val × Option Val × Option Val × Option Val :=
  (lookupVal r "nps_inch", lookupVal r "rating_class",
   lookupVal r "type", lookupVal r "facing")

/-- The pipe natural key `(nps_inch, schedule, wall_thickness_inch)`. -/
def pipeKey (r : Rec) : Option Val × Option Val × Option Val :=
  (lookupVal r "nps_inch", lookupVal r "schedule",
   lookupVal r "wall_thickness_inch")

/-- Attach `b165_table = "Table_<i>"` and `b165_page = None` to rows of
table `i`, as the flange driver loop does. -/
def tagFlange (i : ℕ) (rows : List Rec) : List Rec :=
  rows.map (fun r =>
    setKey (setKey r "b165_table" (.str ("Table_" ++ toString i))) "b165_page" .null)

/-- Attach `b3610_table`/`b3610_page` metadata, as the pipe driver does. -/
def tagPipe (i : ℕ) (rows : List Rec) : List Rec :=
  rows.map (fun r =>
    setKey (setKey r "b3610_table" (.str ("Table_" ++ toString i))) "b3610_page" .null)

/-- Map over the value of a normal result; an exception passes through. -/
def PyRes.map {α β : Type} (f : α → β) : PyRes α → PyRes β
  | .ok a => .ok (f a)
  | .exc e => .exc e

/-- The flange driver's table loop: classify each table, parse accepted
ones with default `rating_class`/`type`/`facing`, tag, concatenate; an
exception in any table aborts the run. -/
def flangeTablesLoop : List (ℕ × List (List RawCell)) → PyRes (List Rec)
  | [] => .ok []
  | p :: ps =>
      if looksLikeFlangeTable p.2 then
        match parseFlangeRows p.2 none none none with
        | .exc e => .exc e
        | .ok rows =>
            match flangeTablesLoop ps with
            | .exc e => .exc e
            | .ok rest => .ok (tagFlange p.1 rows ++ rest)
      else flangeTablesLoop ps

/-- The flange `main` on an already-extracted table list: run the table
loop, then deduplicate. -/
def flangeDriver (tables : List (List (List RawCell))) : PyRes (List Rec) :=
  (flangeTablesLoop tables.enum).map (dedupeBy flangeKey)

/-- The pipe driver's table loop. -/
def pipeTablesLoop : List (ℕ × List (List RawCell)) → PyRes (List Rec)
  | [] => .ok []
  | p :: ps =>
      if looksLikePipeTable p.2 then
        match parsePipeRows p.2 with
        | .exc e => .exc e
        | .ok rows =>
            match pipeTablesLoop ps with
            | .exc e => .exc e
            | .ok rest => .ok (tagPipe p.1 rows ++ rest)
      else pipeTablesLoop ps

/-- The pipe `main` on an already-extracted table list. -/
def pipeDriver (tables : List (List (List RawCell))) : PyRes (List Rec) :=
  (pipeTablesLoop tables.enum).map (dedupeBy pipeKey)

/-! ## Resolver lemmas -/

theorem flangeFieldIdx_setIdx_self (m : FlangeColMap) (f : FlangeField) (i : ℕ) :
    (m.setIdx f i).fieldIdx f = some i := by
  cases f <;> rfl

theorem flangeFieldIdx_setIdx_ne (m : FlangeColMap) {f g : FlangeField}
    (h : g ≠ f) (i : ℕ) : (m.setIdx f i).fieldIdx g = m.fieldIdx g := by
  cases f <;> cases g <;> first | rfl | exact absurd rfl h

theorem pipeFieldIdx_setIdx_self (m : PipeColMap) (f : PipeField) (i : ℕ) :
    (m.setIdx f i).fieldIdx f = some i := by
  cases f <;> rfl

theorem pipeFieldIdx_setIdx_ne (m : PipeColMap) {f g : PipeField}
    (h : g ≠ f) (i : ℕ) : (m.setIdx f i).fieldIdx g = m.fieldIdx g := by
  cases f <;> cases g <;> first | rfl | exact absurd rfl h

theorem resolveFlangeAux_eq_gen :
    ∀ (cs : List String) (i : ℕ) (m : FlangeColMap),
      resolveFlangeAux i m cs = resolveGen classifyFlange FlangeColMap.setIdx i m cs := by
  intro cs
  induction cs with
  | nil => intro i m; rfl
  | cons c cs ih =>
      intro i m
      cases hc : classifyFlange c <;>
        simp only [resolveFlangeAux, resolveGen, flangeStep, hc, ih]

theorem resolvePipeAux_eq_gen :
    ∀ (cs : List String) (i : ℕ) (m : PipeColMap),
      resolvePipeAux i m cs = resolveGen classifyPipe PipeColMap.setIdx i m cs := by
  intro cs
  induction cs with
  | nil => intro i m; rfl
  | cons c cs ih =>
      intro i m
      cases hc : classifyPipe c <;>
        simp only [resolvePipeAux, resolveGen, pipeStep, hc, ih]

section ResolverGeneric

variable {M F : Type} (classify : String → Option F) (set : M → F → ℕ → M)
  (get : M → F → Option ℕ)

/-- After the loop, a resolved slot points at a column whose first
matching rule is that very field (or it was already set before). -/
theorem resolveGen_sound
    (hself : ∀ m f i, get (set m f i) f = some i)
    (hne : ∀ m f g i, g ≠ f → get (set m f i) g = get m g) :
    ∀ (cs : List String) (i : ℕ) (m : M) (f : F) (k : ℕ),
      get (resolveGen classify set i m cs) f = some k →
      get m f = some k ∨
        ∃ j c, cs.get? j = some c ∧ k = i + j ∧ classify c = some f := by
  intro cs
  induction cs with
  | nil => intro i m f k h; exact Or.inl h
  | cons c cs ih =>
      intro i m f k h
      rcases ih (i + 1) _ f k h with h' | ⟨j, c', hj, hk, hc⟩
      · revert h'
        match hcl : classify c with
        | none => intro h'; exact Or.inl h'
        | some g =>
            intro h'
            by_cases hfg : f = g
            · subst hfg
              rw [hself] at h'
              injection h' with h''
              exact Or.inr ⟨0, c, rfl, by omega, hcl⟩
            · rw [hne _ _ _ _ hfg] at h'
              exact Or.inl h'
      · exact Or.inr ⟨j + 1, c', by simpa using hj, by omega, hc⟩

/-- A slot that is set stays set through the rest of the loop. -/
theorem resolveGen_persist
    (hself : ∀ m f i, get (set m f i) f = some i)
    (hne : ∀ m f g i, g ≠ f → get (set m f i) g = get m g) :
    ∀ (cs : List String) (i : ℕ) (m : M) (f : F),
      (get m f).isSome → (get (resolveGen classify set i m cs) f).isSome := by
  intro cs
  induction cs with
  | nil => intro i m f h; exact h
  | cons c cs ih =>
      intro i m f h
      refine ih (i + 1) _ f ?_
      match hcl : classify c with
      | none => exact h
      | some g =>
          by_cases hfg : f = g
          · subst hfg; rw [hself]; rfl
          · rw [hne _ _ _ _ hfg]; exact h

/-- If some column's first matching rule is `f`, the `f` slot ends up
resolved. -/
theorem resolveGen_hit
    (hself : ∀ m f i, get (set m f i) f = some i)
    (hne : ∀ m f g i, g ≠ f → get (set m f i) g = get m g) :
    ∀ (cs : List String) (i : ℕ) (m : M) (f : F),
      (∃ c ∈ cs, classify c = some f) →
      (get (resolveGen classify set i m cs) f).isSome := by
  intro cs
  induction cs with
  | nil => rintro i m f ⟨c, hc, -⟩; cases hc
  | cons c cs ih =>
      rintro i m f ⟨c', hc', hcl⟩
      simp only [resolveGen]
      rcases List.mem_cons.mp hc' with rfl | hmem
      · rw [hcl]
        exact resolveGen_persist classify set get hself hne cs (i + 1) _ f
          (by rw [hself]; rfl)
      · exact ih (i + 1) _ f ⟨c', hmem, hcl⟩

/-- If no remaining column matches `f`, the `f` slot is untouched. -/
theorem resolveGen_skip
    (hne : ∀ m f g i, g ≠ f → get (set m f i) g = get m g) :
    ∀ (cs : List String) (i : ℕ) (m : M) (f : F),
      (∀ c ∈ cs, classify c ≠ some f) →
      get (resolveGen classify set i m cs) f = get m f := by
  intro cs
  induction cs with
  | nil => intro i m f _; rfl
  | cons c cs ih =>
      intro i m f h
      simp only [resolveGen]
      rw [ih (i + 1) _ f (fun c' hc' => h c' (List.mem_cons_of_mem _ hc'))]
      match hcl : classify c with
      | none => rfl
      | some g =>
          have hfg : f ≠ g := by
            intro hfg
            exact h c (List.mem_cons_self c cs) (by rw [hcl, hfg])
          exact hne _ _ _ _ hfg

/-- Splitting the loop at a column boundary. -/
theorem resolveGen_append :
    ∀ (l1 l2 : List String) (i : ℕ) (m : M),
      resolveGen classify set i m (l1 ++ l2) =
        resolveGen classify set (i + l1.length) (resolveGen classify set i m l1) l2 := by
  intro l1
  induction l1 with
  | nil => intro l2 i m; simp [resolveGen]
  | cons c cs ih =>
      intro l2 i m
      simp only [List.cons_append, resolveGen, List.append_eq, ih, List.length_cons]
      have hlen : i + 1 + cs.length = i + (cs.length + 1) := by omega
      rw [hlen]

end ResolverGeneric

/-! ## Deduplication lemmas -/

section DedupeLemmas

variable {α κ : Type} [DecidableEq κ] (key : α → κ)

/-- Deduplication only removes records: the output is a sublist, hence
order-preserving. -/
theorem dedupeAux_sublist : ∀ (seen : List κ) (l : List α),
    (dedupeAux key seen l).Sublist l := by
  intro seen l
  induction l generalizing seen with
  | nil => exact List.Sublist.refl _
  | cons x xs ih =>
      simp only [dedupeAux]
      by_cases hk : key x ∈ seen
      · rw [if_pos hk]
        exact (ih seen).cons x
      · rw [if_neg hk]
        exact (ih _).cons₂ x

/-- Every retained record's key was not seen before the pass. -/
theorem dedupeAux_key_not_seen : ∀ (seen : List κ) (l : List α) (y : α),
    y ∈ dedupeAux key seen l → key y ∉ seen := by
  intro seen l
  induction l generalizing seen with
  | nil => intro y h; cases h
  | cons x xs ih =>
      intro y h
      simp only [dedupeAux] at h
      by_cases hk : key x ∈ seen
      · rw [if_pos hk] at h
        exact ih seen y h
      · rw [if_neg hk] at h
        rcases List.mem_cons.mp h with rfl | h'
        · exact hk
        · intro hy
          exact ih (key x :: seen) y h' (List.mem_cons_of_mem _ hy)

/-- Every retained record is the first element of the input holding its
key. -/
theorem dedupeAux_find_first : ∀ (seen : List κ) (l : List α) (y : α),
    y ∈ dedupeAux key seen l →
    l.find? (fun z => decide (key z = key y)) = some y := by
  intro seen l
  induction l generalizing seen with
  | nil => intro y h; cases h
  | cons x xs ih =>
      intro y h
      simp only [dedupeAux] at h
      by_cases hk : key x ∈ seen
      · rw [if_pos hk] at h
        have hy := dedupeAux_key_not_seen key seen xs y h
        have hne : ¬ key x = key y := fun he => hy (he ▸ hk)
        rw [List.find?_cons_of_neg _ (by simpa using hne)]
        exact ih seen y h
      · rw [if_neg hk] at h
        rcases List.mem_cons.mp h with rfl | h'
        · rw [List.find?_cons_of_pos _ (by simp)]
        · have hy := dedupeAux_key_not_seen key (key x :: seen) xs y h'
          have hne : ¬ key x = key y := fun he =>
            hy (by rw [← he]; exact List.mem_cons_self _ _)
          rw [List.find?_cons_of_neg _ (by simpa using hne)]
          exact ih _ y h'

/-- The output keys are pairwise distinct. -/
theorem dedupeAux_keys_nodup : ∀ (seen : List κ) (l : List α),
    ((dedupeAux key seen l).map key).Nodup := by
  intro seen l
  induction l generalizing seen with
  | nil => exact List.nodup_nil
  | cons x xs ih =>
      simp only [dedupeAux]
      by_cases hk : key x ∈ seen
      · rw [if_pos hk]
        exact ih seen
      · rw [if_neg hk]
        simp only [List.map_cons, List.nodup_cons]
        refine ⟨?_, ih _⟩
        intro hmem
        rcases List.mem_map.mp hmem with ⟨y, hy, hky⟩
        exact dedupeAux_key_not_seen key _ _ y hy
          (by rw [hky]; exact List.mem_cons_self _ _)

/-- A list with pairwise-distinct keys, none seen before, passes through
unchanged. -/
theorem dedupeAux_nodup_noop : ∀ (seen : List κ) (l : List α),
    (l.map key).Nodup → (∀ y ∈ l, key y ∉ seen) → dedupeAux key seen l = l := by
  intro seen l
  induction l generalizing seen with
  | nil => intro _ _; rfl
  | cons x xs ih =>
      intro hnd hdisj
      have hnd' : (∀ y ∈ xs, ¬ key y = key x) ∧ (xs.map key).Nodup := by
        simpa using hnd
      simp only [dedupeAux]
      rw [if_neg (hdisj x (List.mem_cons_self _ _))]
      congr 1
      refine ih _ hnd'.2 ?_
      intro y hy hmem
      rcases List.mem_cons.mp hmem with he | hseen
      · exact hnd'.1 y hy he
      · exact hdisj y (List.mem_cons_of_mem _ hy) hseen

/-- One pass over an already-filtered list changes nothing. -/
theorem dedupeAux_idem : ∀ (seen : List κ) (l : List α),
    dedupeAux key seen (dedupeAux key seen l) = dedupeAux key seen l := by
  intro seen l
  induction l generalizing seen with
  | nil => rfl
  | cons x xs ih =>
      simp only [dedupeAux]
      by_cases hk : key x ∈ seen
      · rw [if_pos hk]
        exact ih seen
      · rw [if_neg hk]
        simp only [dedupeAux]
        rw [if_neg hk]
        rw [ih (key x :: seen)]

end DedupeLemmas

/-! ## Row and record lemmas -/

/-- Unresolved columns read as `None`. -/
theorem getCell_none (vals : List RawCell) : getCell vals none = none := rfl

/-- A flange row that emits a record has a non-empty NPS cell and both
`to_int` calls returning normally; the record is then the flange dict of
the coerced cells. -/
theorem flangeRow_eq_some (rc : Option ℤ) (ft fc : Option String)
    (m : FlangeColMap) (vals : List RawCell) (r : Rec)
    (h : flangeRow rc ft fc m vals = .ok (some r)) :
    ∃ npsRaw dn nb, getCell vals m.nps = some npsRaw ∧ npsRaw ≠ "" ∧
      toIntM (getCell vals m.dn) = .ok dn ∧
      toIntM (getCell vals m.num_bolts) = .ok nb ∧
      r = flangeRecOf (pyFloat? (stripStr (removeAllChar npsRaw '"')))
        dn rc (pyOrStr ft "WN") (pyOrStr fc "RF")
        (toFloatM (getCell vals m.bore)) (toFloatM (getCell vals m.od))
        (toFloatM (getCell vals m.thickness)) (toFloatM (getCell vals m.hub_dia))
        (toFloatM (getCell vals m.hub_len)) (toFloatM (getCell vals m.bc))
        (toFloatM (getCell vals m.bolt_hole_dia)) nb
        (getCell vals m.bolt_size) (toFloatM (getCell vals m.weight)) := by
  unfold flangeRow at h
  split at h
  · exact Option.noConfusion (PyRes.ok.inj h)
  · rename_i npsRaw hn
    by_cases hs : npsRaw = ""
    · rw [if_pos hs] at h
      exact Option.noConfusion (PyRes.ok.inj h)
    · rw [if_neg hs] at h
      cases hdn : toIntM (getCell vals m.dn) with
      | exc e =>
          rw [hdn] at h
          exact PyRes.noConfusion h
      | ok dn =>
          rw [hdn] at h
          cases hnb : toIntM (getCell vals m.num_bolts) with
          | exc e =>
              rw [hnb] at h
              exact PyRes.noConfusion h
          | ok nb =>
              rw [hnb] at h
              exact ⟨npsRaw, dn, nb, hn, hs, rfl, rfl,
                (Option.some.inj (PyRes.ok.inj h)).symm⟩

/-- A flange row is skipped (`continue`) exactly when the NPS cell is
missing or empty. -/
theorem flangeRow_eq_none (rc : Option ℤ) (ft fc : Option String)
    (m : FlangeColMap) (vals : List RawCell) :
    flangeRow rc ft fc m vals = .ok none ↔
      getCell vals m.nps = none ∨ getCell vals m.nps = some "" := by
  unfold flangeRow
  cases hn : getCell vals m.nps with
  | none => simp [hn]
  | some s =>
      simp only [hn]
      by_cases hs : s = ""
      · subst hs; simp
      · simp only [if_neg hs]
        constructor
        · intro h
          exfalso
          cases hdn : toIntM (getCell vals m.dn) with
          | exc e =>
              rw [hdn] at h
              exact PyRes.noConfusion h
          | ok dn =>
              rw [hdn] at h
              cases hnb : toIntM (getCell vals m.num_bolts) with
              | exc e =>
                  rw [hnb] at h
                  exact PyRes.noConfusion h
              | ok nb =>
                  rw [hnb] at h
                  exact Option.noConfusion (PyRes.ok.inj h)
        · rintro (h | h)
          · exact Option.noConfusion h
          · exact absurd (Option.some.inj h) hs

/-- A flange row raises only out of one of the two `to_int` calls. -/
theorem flangeRow_exc (rc : Option ℤ) (ft fc : Option String)
    (m : FlangeColMap) (vals : List RawCell) (e : String)
    (h : flangeRow rc ft fc m vals = .exc e) :
    toIntM (getCell vals m.dn) = .exc e ∨
      toIntM (getCell vals m.num_bolts) = .exc e := by
  unfold flangeRow at h
  split at h
  · exact PyRes.noConfusion h
  · rename_i npsRaw hn
    by_cases hs : npsRaw = ""
    · rw [if_pos hs] at h
      exact PyRes.noConfusion h
    · rw [if_neg hs] at h
      cases hdn : toIntM (getCell vals m.dn) with
      | exc e1 =>
          rw [hdn] at h
          exact Or.inl (by rw [PyRes.exc.inj h])
      | ok dn =>
          rw [hdn] at h
          cases hnb : toIntM (getCell vals m.num_bolts) with
          | exc e1 =>
              rw [hnb] at h
              exact Or.inr (by rw [PyRes.exc.inj h])
          | ok nb =>
              rw [hnb] at h
              exact PyRes.noConfusion h

/-- `to_int` raises only the OverflowError of `int` on an infinite
double: the comma-stripped cell must parse to an infinity. -/
theorem toIntM_exc (x : Option String) (e : String) (h : toIntM x = .exc e) :
    e = "OverflowError" ∧ ∃ s b, x = some s ∧
      pyFloat? (stripStr (removeAllChar s ',')) = some (.inf b) := by
  cases x with
  | none => exact PyRes.noConfusion h
  | some s =>
      simp only [toIntM] at h
      cases hp : pyFloat? (stripStr (removeAllChar s ',')) with
      | none =>
          rw [hp] at h
          exact PyRes.noConfusion h
      | some v =>
          cases v with
          | finite q =>
              rw [hp] at h
              exact PyRes.noConfusion h
          | inf b =>
              rw [hp] at h
              exact ⟨(PyRes.exc.inj h).symm, s, b, rfl, hp⟩
          | nan =>
              rw [hp] at h
              exact PyRes.noConfusion h

/-- A pipe row that emits a record has a non-empty NPS cell and a
normally-returning dn coercion; the record is then the pipe dict of the
coerced cells. -/
theorem pipeRow_eq_some (m : PipeColMap) (vals : List RawCell) (r : Rec)
    (h : pipeRow m vals = .ok (some r)) :
    ∃ npsRaw dn, getCell vals m.nps = some npsRaw ∧ npsRaw ≠ "" ∧
      pyDnInt (getCell vals m.dn) = .ok dn ∧
      r = pipeRecOf (pyFloat? (stripStr (removeAllChar npsRaw '"'))) dn
        (toFloatM (getCell vals m.od_in)) (toFloatM (getCell vals m.od_mm))
        (pyOrStr (getCell vals m.schedule) "")
        (toFloatM (getCell vals m.wall_in)) (toFloatM (getCell vals m.wall_mm))
        (toFloatM (getCell vals m.wt_lb_ft)) (toFloatM (getCell vals m.wt_kg_m))
        (stripStr npsRaw) := by
  unfold pipeRow at h
  split at h
  · exact Option.noConfusion (PyRes.ok.inj h)
  · rename_i npsRaw hn
    by_cases hs : npsRaw = ""
    · rw [if_pos hs] at h
      exact Option.noConfusion (PyRes.ok.inj h)
    · rw [if_neg hs] at h
      cases hdn : pyDnInt (getCell vals m.dn) with
      | exc e =>
          rw [hdn] at h
          exact PyRes.noConfusion h
      | ok dn =>
          rw [hdn] at h
          exact ⟨npsRaw, dn, hn, hs, rfl,
            (Option.some.inj (PyRes.ok.inj h)).symm⟩

/-- A pipe row is skipped exactly when the NPS cell is missing or empty. -/
theorem pipeRow_eq_none (m : PipeColMap) (vals : List RawCell) :
    pipeRow m vals = .ok none ↔
      getCell vals m.nps = none ∨ getCell vals m.nps = some "" := by
  unfold pipeRow
  cases hn : getCell vals m.nps with
  | none => simp [hn]
  | some s =>
      simp only [hn]
      by_cases hs : s = ""
      · subst hs; simp
      · simp only [if_neg hs]
        constructor
        · intro h
          exfalso
          cases hdn : pyDnInt (getCell vals m.dn) with
          | exc e =>
              rw [hdn] at h
              exact PyRes.noConfusion h
          | ok dn =>
              rw [hdn] at h
              exact Option.noConfusion (PyRes.ok.inj h)
        · rintro (h | h)
          · exact Option.noConfusion h
          · exact absurd (Option.some.inj h) hs

/-- A pipe row raises only out of the dn coercion. -/
theorem pipeRow_exc (m : PipeColMap) (vals : List RawCell) (e : String)
    (h : pipeRow m vals = .exc e) : pyDnInt (getCell vals m.dn) = .exc e := by
  unfold pipeRow at h
  split at h
  · exact PyRes.noConfusion h
  · rename_i npsRaw hn
    by_cases hs : npsRaw = ""
    · rw [if_pos hs] at h
      exact PyRes.noConfusion h
    · rw [if_neg hs] at h
      cases hdn : pyDnInt (getCell vals m.dn) with
      | exc e1 =>
          rw [hdn] at h
          rw [PyRes.exc.inj h]
      | ok dn =>
          rw [hdn] at h
          exact PyRes.noConfusion h

/-- The pipe dn coercion raises only on a cell that passes the isdigit
guard (non-empty, all digits once one dot is dropped). -/
theorem pyDnInt_exc (x : Option String) (e : String) (h : pyDnInt x = .exc e) :
    ∃ s, x = some s ∧ (s ≠ "" && pyIsdigit (removeFirstChar s '.')) = true := by
  cases x with
  | none => exact PyRes.noConfusion h
  | some s =>
      simp only [pyDnInt] at h
      by_cases hg : (s ≠ "" && pyIsdigit (removeFirstChar s '.')) = true
      · exact ⟨s, rfl, hg⟩
      · rw [if_neg hg] at h
        exact PyRes.noConfusion h

/-- Updating one dict key leaves the others readable unchanged. -/
theorem lookupVal_setKey_ne (r : Rec) {k sk : String} (h : k ≠ sk) (v : Val) :
    lookupVal (setKey r sk v) k = lookupVal r k := by
  induction r with
  | nil => rfl
  | cons p ps ih =>
      have hstep : setKey (p :: ps) sk v =
          (if p.1 = sk then (sk, v) else p) :: setKey ps sk v := rfl
      rw [hstep]
      by_cases hp : p.1 = sk
      · rw [if_pos hp]
        simp only [lookupVal]
        rw [if_neg (fun hh : sk = k => h hh.symm),
          if_neg (fun hh : p.1 = k => h (hh ▸ hp)), ih]
      · rw [if_neg hp]
        simp only [lookupVal]
        by_cases hk : p.1 = k
        · rw [if_pos hk, if_pos hk]
        · rw [if_neg hk, if_neg hk, ih]

/-- The empty flange `col_map` resolves no field. -/
theorem flangeFieldIdx_empty (f : FlangeField) :
    (({} : FlangeColMap)).fieldIdx f = none := by
  cases f <;> rfl

/-- The empty pipe `col_map` resolves no field. -/
theorem pipeFieldIdx_empty (f : PipeField) :
    (({} : PipeColMap)).fieldIdx f = none := by
  cases f <;> rfl

/-- The shared data-row loop emits at most one record per row. -/
theorem rowsLoop_length_le (f : List RawCell → PyRes (Option Rec)) :
    ∀ (l : List (List RawCell)) (rs : List Rec),
      rowsLoop f l = .ok rs → rs.length ≤ l.length := by
  intro l
  induction l with
  | nil =>
      intro rs h
      have h2 := PyRes.ok.inj h
      subst h2
      exact Nat.le_refl 0
  | cons v vs ih =>
      intro rs h
      unfold rowsLoop at h
      cases hv : f v with
      | exc e =>
          rw [hv] at h
          exact PyRes.noConfusion h
      | ok o =>
          cases o with
          | none =>
              rw [hv] at h
              have h2 : rowsLoop f vs = .ok rs := h
              exact Nat.le_succ_of_le (ih rs h2)
          | some r =>
              rw [hv] at h
              cases hrec : rowsLoop f vs with
              | exc e =>
                  rw [hrec] at h
                  exact PyRes.noConfusion h
              | ok rs2 =>
                  rw [hrec] at h
                  have h2 : r :: rs2 = rs := PyRes.ok.inj h
                  subst h2
                  exact Nat.succ_le_succ (ih rs2 hrec)

/-- Every record a normally-returning row loop emits comes from a row of
its input. -/
theorem mem_rowsLoop (f : List RawCell → PyRes (Option Rec)) :
    ∀ (l : List (List RawCell)) (rs : List Rec) (r0 : Rec),
      rowsLoop f l = .ok rs → r0 ∈ rs → ∃ v ∈ l, f v = .ok (some r0) := by
  intro l
  induction l with
  | nil =>
      intro rs r0 h hr
      have h2 := PyRes.ok.inj h
      subst h2
      cases hr
  | cons v vs ih =>
      intro rs r0 h hr
      unfold rowsLoop at h
      cases hv : f v with
      | exc e =>
          rw [hv] at h
          exact PyRes.noConfusion h
      | ok o =>
          cases o with
          | none =>
              rw [hv] at h
              have h2 : rowsLoop f vs = .ok rs := h
              rcases ih rs r0 h2 hr with ⟨w, hw, hfw⟩
              exact ⟨w, List.mem_cons_of_mem v hw, hfw⟩
          | some r =>
              rw [hv] at h
              cases hrec : rowsLoop f vs with
              | exc e =>
                  rw [hrec] at h
                  exact PyRes.noConfusion h
              | ok rs2 =>
                  rw [hrec] at h
                  have h2 : r :: rs2 = rs := PyRes.ok.inj h
                  subst h2
                  rcases List.mem_cons.mp hr with rfl | hr2
                  · exact ⟨v, List.mem_cons_self v vs, hv⟩
                  · rcases ih rs2 r0 hrec hr2 with ⟨w, hw, hfw⟩
                    exact ⟨w, List.mem_cons_of_mem v hw, hfw⟩

/-- Every record emitted by a normally-returning `parse_flange_rows`
comes from `flangeRow` on some row of the table. -/
theorem mem_parseFlangeRows {df : List (List RawCell)} {rc : Option ℤ}
    {ft fc : Option String} {rows : List Rec} {r0 : Rec}
    (h : parseFlangeRows df rc ft fc = .ok rows) (hr : r0 ∈ rows) :
    ∃ m vals, flangeRow rc ft fc m vals = .ok (some r0) := by
  unfold parseFlangeRows at h
  rcases hk : df.filter (fun r => r.any (fun c => c.isSome)) with - | ⟨hdr, data⟩
  · rw [hk] at h
    exact PyRes.noConfusion h
  · rw [hk] at h
    rcases mem_rowsLoop _ data rows r0 h hr with ⟨vals, -, hrow⟩
    exact ⟨_, vals, hrow⟩

/-- A normally-returning `parse_flange_rows` emits at most one record
per data row (the header row never yields a record). -/
theorem parseFlangeRows_length_le (df : List (List RawCell)) (rc : Option ℤ)
    (ft fc : Option String) (rows : List Rec)
    (h : parseFlangeRows df rc ft fc = .ok rows) :
    rows.length ≤ df.length - 1 := by
  unfold parseFlangeRows at h
  rcases hk : df.filter (fun r => r.any (fun c => c.isSome)) with - | ⟨hdr, data⟩
  · rw [hk] at h
    exact PyRes.noConfusion h
  · rw [hk] at h
    have h1 : rows.length ≤ data.length := rowsLoop_length_le _ data rows h
    have h2 : (hdr :: data).length ≤ df.length := by
      rw [← hk]
      exact (List.filter_sublist df).length_le
    simp only [List.length_cons] at h2
    omega

/-- A normally-returning `parse_pipe_rows` emits at most one record per
data row. -/
theorem parsePipeRows_length_le (df : List (List RawCell)) (rows : List Rec)
    (h : parsePipeRows df = .ok rows) : rows.length ≤ df.length - 1 := by
  unfold parsePipeRows at h
  rcases hk : df.filter (fun r => r.any (fun c => c.isSome)) with - | ⟨hdr, data⟩
  · rw [hk] at h
    exact PyRes.noConfusion h
  · rw [hk] at h
    have h1 : rows.length ≤ data.length := rowsLoop_length_le _ data rows h
    have h2 : (hdr :: data).length ≤ df.length := by
      rw [← hk]
      exact (List.filter_sublist df).length_le
    simp only [List.length_cons] at h2
    omega

/-- Every record of a normally-returning flange table loop comes from a
parsed, tagged accepted table. -/
theorem mem_flangeTablesLoop :
    ∀ (ps : List (ℕ × List (List RawCell))) (L : List Rec) (r : Rec),
      flangeTablesLoop ps = .ok L → r ∈ L →
      ∃ i df rows, parseFlangeRows df none none none = .ok rows ∧
        r ∈ tagFlange i rows := by
  intro ps
  induction ps with
  | nil =>
      intro L r h hr
      have h2 := PyRes.ok.inj h
      subst h2
      cases hr
  | cons p ps ih =>
      intro L r h hr
      unfold flangeTablesLoop at h
      by_cases hc : looksLikeFlangeTable p.2 = true
      · rw [if_pos hc] at h
        cases hp : parseFlangeRows p.2 none none none with
        | exc e =>
            rw [hp] at h
            exact PyRes.noConfusion h
        | ok rows =>
            rw [hp] at h
            cases hrest : flangeTablesLoop ps with
            | exc e =>
                rw [hrest] at h
                exact PyRes.noConfusion h
            | ok rest =>
                rw [hrest] at h
                have h2 : tagFlange p.1 rows ++ rest = L := PyRes.ok.inj h
                subst h2
                rcases List.mem_append.mp hr with hr1 | hr2
                · exact ⟨p.1, p.2, rows, hp, hr1⟩
                · exact ih rest r hrest hr2
      · rw [if_neg hc] at h
        exact ih L r h hr

/-! ## Claim theorems -/

/-- C9: `pressure_series_from_schedule` is a total function of the
upper-cased, space-stripped form of its input; on that normal form
`{STD, 40, 40S}` map to `"STD"`, `{XS, 80, 80S}` to `"XS"`, `"XXS"` to
`"XXS"`, and everything else to `""`; in particular `"40S" → "STD"`,
`" xs " → "XS"`, `"150" → ""`. -/
theorem pressure_series_total_insensitive :
    (∀ s t : String,
      removeAllChar (upperStr s) ' ' = removeAllChar (upperStr t) ' ' →
      pressureSeriesFromSchedule s = pressureSeriesFromSchedule t)
    ∧ (∀ s : String,
        (removeAllChar (upperStr s) ' ' ∈ (["STD", "40", "40S"] : List String) →
          pressureSeriesFromSchedule s = "STD")
        ∧ (removeAllChar (upperStr s) ' ' ∈ (["XS", "80", "80S"] : List String) →
          pressureSeriesFromSchedule s = "XS")
        ∧ (removeAllChar (upperStr s) ' ' = "XXS" → pressureSeriesFromSchedule s = "XXS")
        ∧ (removeAllChar (upperStr s) ' ' ∉
            (["STD", "40", "40S", "XS", "80", "80S", "XXS"] : List String) →
          pressureSeriesFromSchedule s = ""))
    ∧ pressureSeriesFromSchedule "40S" = "STD"
    ∧ pressureSeriesFromSchedule " xs " = "XS"
    ∧ pressureSeriesFromSchedule "150" = "" := by
  refine ⟨?_, ?_, by decide, by decide, by decide⟩
  · intro s t h
    simp only [pressureSeriesFromSchedule]
    rw [h]
  · intro s
    simp only [pressureSeriesFromSchedule]
    generalize removeAllChar (upperStr s) ' ' = u
    refine ⟨?_, ?_, ?_, ?_⟩
    · intro hm
      simp only [List.mem_cons, List.not_mem_nil, or_false] at hm
      rcases hm with rfl | rfl | rfl <;> decide
    · intro hm
      simp only [List.mem_cons, List.not_mem_nil, or_false] at hm
      rcases hm with rfl | rfl | rfl <;> decide
    · rintro rfl
      decide
    · intro hm
      simp only [List.mem_cons, List.not_mem_nil, or_false, not_or] at hm
      obtain ⟨h1, h2, h3, h4, h5, h6, h7⟩ := hm
      rw [if_neg (by simp [h1, h2, h3]), if_neg (by simp [h4, h5, h6]), if_neg (by simp [h7])]

/-- C9 witness: the theorem applied at `"40s"` and `" xs "`. -/
theorem pressure_series_total_insensitive_w :
    pressureSeriesFromSchedule "40s" = "STD" ∧
    pressureSeriesFromSchedule " xs " = pressureSeriesFromSchedule "XS" :=
  ⟨(pressure_series_total_insensitive.2.1 "40s").1 (by decide),
   pressure_series_total_insensitive.1 " xs " "XS" (by decide)⟩

/-- C6 counterexample: the pipe pipeline's dn coercion rejects the
comma-grouped cell `"1,000"` — the emitted record holds `null`, not the
integer `1000` the claim asserts for both pipelines — and the flange
`to_int` does not return at all on an infinite-parsing cell such as
`"inf"`: only ValueError is caught, so `int(float("inf"))` raises an
uncaught OverflowError. -/
theorem pipe_dn_comma_null :
    pyDnInt (some "1,000") = .ok none ∧
    (parsePipeRows [[some "NPS", some "DN", some "Outside Diameter (in)", some "Wall (in)"],
      [some "4", some "1,000", some "4.500", some "0.237"]]).map
      (List.map (fun r => lookupVal r "dn_mm")) = .ok [some .null] ∧
    toIntM (some "inf") = .exc "OverflowError" := by
  exact ⟨by decide, by decide, by decide⟩

/-- C6 (amended): the flange `to_int` strips commas and whitespace and
parses as a Python float; a finite parse truncates toward zero (so
`"1,000" → 1000` and `"50.0" → 50`), a parse failure or a NaN parse
yields null (only ValueError is caught), but an infinite parse raises an
uncaught OverflowError out of `int(float(s))`.  The pipe pipeline's dn
coercion instead demands the cell (less one dot) be all digits and
strips no commas, so `"1,000"` yields null there. -/
theorem to_int_spec :
    toIntM none = .ok none
    ∧ (∀ s, pyFloat? (stripStr (removeAllChar s ',')) = none →
        toIntM (some s) = .ok none)
    ∧ (∀ s q, pyFloat? (stripStr (removeAllChar s ',')) = some (.finite q) →
        toIntM (some s) = .ok (some (ratTrunc q)))
    ∧ (∀ s, pyFloat? (stripStr (removeAllChar s ',')) = some .nan →
        toIntM (some s) = .ok none)
    ∧ (∀ s b, pyFloat? (stripStr (removeAllChar s ',')) = some (.inf b) →
        toIntM (some s) = .exc "OverflowError")
    ∧ toIntM (some "1,000") = .ok (some 1000)
    ∧ toIntM (some "50.0") = .ok (some 50)
    ∧ toIntM (some "inf") = .exc "OverflowError"
    ∧ (∀ s, ¬ (s ≠ "" && pyIsdigit (removeFirstChar s '.')) = true →
        pyDnInt (some s) = .ok none)
    ∧ pyDnInt (some "1,000") = .ok none := by
  refine ⟨rfl, ?_, ?_, ?_, ?_, by decide, by decide, by decide, ?_, by decide⟩
  · intro s h
    simp only [toIntM, h]
  · intro s q h
    simp only [toIntM, h]
  · intro s h
    simp only [toIntM, h]
  · intro s b h
    simp only [toIntM, h]
  · intro s h
    simp only [pyDnInt]
    rw [if_neg h]

/-- C6 witness: the amended spec applied at `"abc"` (parse failure),
`"4.75"` (finite truncation) and `"1e999"` (overflow). -/
theorem to_int_spec_w :
    toIntM (some "abc") = .ok none ∧
    toIntM (some "4.75") = .ok (some (ratTrunc (mkRat 19 4))) ∧
    toIntM (some "1e999") = .exc "OverflowError" :=
  ⟨to_int_spec.2.1 "abc" (by decide),
   to_int_spec.2.2.1 "4.75" (mkRat 19 4) (by decide),
   to_int_spec.2.2.2.2.1 "1e999" false (by decide)⟩

/-- C5 counterexample: on the flange table whose NPS cell is the
fractional `"1/8"`, the numeric field is null but the emitted record has
no display-string key at all — the original text is not preserved in the
flange pipeline, contrary to the claim's "in both pipelines". -/
theorem flange_fraction_no_display :
    (parseFlangeRows [[some "NPS", some "Class", some "OD (in)", some "Bolt Circle (in)"],
      [some "1/8", some "150", some "6.00", some "4.75"]] none none none).map
      (List.map (fun r => (lookupVal r "nps_inch", lookupVal r "nps_display"))) =
      .ok [(some .null, none)] := by
  decide

/-- C5 (amended): a fractional NPS such as `"1/8"` fails float coercion,
so both pipelines store null for the numeric nps field and never guess a
number (whenever the row's integer coercions return normally, a record
is emitted); the original text is preserved in the `nps_display` field
by the pipe pipeline only — the flange record carries no display field. -/
theorem nps_fraction_null_never_guessed :
    (∀ (rc : Option ℤ) (ft fc : Option String) (m : FlangeColMap)
      (vals : List RawCell) (npsRaw : String) (dn nb : Option ℤ),
      getCell vals m.nps = some npsRaw → npsRaw ≠ "" →
      pyFloat? (stripStr (removeAllChar npsRaw '"')) = none →
      toIntM (getCell vals m.dn) = .ok dn →
      toIntM (getCell vals m.num_bolts) = .ok nb →
      ∃ r, flangeRow rc ft fc m vals = .ok (some r) ∧
        lookupVal r "nps_inch" = some .null ∧ lookupVal r "nps_display" = none)
    ∧ (∀ (m : PipeColMap) (vals : List RawCell) (npsRaw : String) (dn : Option ℤ),
      getCell vals m.nps = some npsRaw → npsRaw ≠ "" →
      pyFloat? (stripStr (removeAllChar npsRaw '"')) = none →
      pyDnInt (getCell vals m.dn) = .ok dn →
      ∃ r, pipeRow m vals = .ok (some r) ∧
        lookupVal r "nps_inch" = some .null ∧
        lookupVal r "nps_display" = some (.str (stripStr npsRaw))) := by
  constructor
  · intro rc ft fc m vals npsRaw dn nb hget hne hfl hdn hnb
    refine ⟨flangeRecOf none dn rc (pyOrStr ft "WN")
      (pyOrStr fc "RF") (toFloatM (getCell vals m.bore)) (toFloatM (getCell vals m.od))
      (toFloatM (getCell vals m.thickness)) (toFloatM (getCell vals m.hub_dia))
      (toFloatM (getCell vals m.hub_len)) (toFloatM (getCell vals m.bc))
      (toFloatM (getCell vals m.bolt_hole_dia)) nb
      (getCell vals m.bolt_size) (toFloatM (getCell vals m.weight)), ?_, rfl, rfl⟩
    unfold flangeRow
    simp only [hget]
    rw [if_neg hne]
    simp only [hdn, hnb, hfl]
  · intro m vals npsRaw dn hget hne hfl hdn
    refine ⟨pipeRecOf none dn
      (toFloatM (getCell vals m.od_in)) (toFloatM (getCell vals m.od_mm))
      (pyOrStr (getCell vals m.schedule) "")
      (toFloatM (getCell vals m.wall_in)) (toFloatM (getCell vals m.wall_mm))
      (toFloatM (getCell vals m.wt_lb_ft)) (toFloatM (getCell vals m.wt_kg_m))
      (stripStr npsRaw), ?_, rfl, rfl⟩
    unfold pipeRow
    simp only [hget]
    rw [if_neg hne]
    simp only [hdn, hfl]

/-- C5 witness: the theorem applied to both pipelines at the cell
`"1/8"`. -/
theorem nps_fraction_null_never_guessed_w :
    (∃ r, flangeRow none none none { nps := some 0 } [some "1/8"] = .ok (some r) ∧
      lookupVal r "nps_inch" = some .null ∧ lookupVal r "nps_display" = none) ∧
    (∃ r, pipeRow { nps := some 0 } [some "1/8"] = .ok (some r) ∧
      lookupVal r "nps_inch" = some .null ∧
      lookupVal r "nps_display" = some (.str (stripStr "1/8"))) :=
  ⟨nps_fraction_null_never_guessed.1 none none none _ _ "1/8" none none
      (by decide) (by decide) (by decide) (by decide) (by decide),
   nps_fraction_null_never_guessed.2 _ _ "1/8" none
      (by decide) (by decide) (by decide) (by decide)⟩

/-- C4 counterexample: a pipe table whose header resolves no schedule
column emits `schedule = ""` (an empty-string substitute), not null as
the claim requires of every unresolved field. -/
theorem pipe_unresolved_schedule_empty_string :
    (resolvePipeHeader (normaliseHeader
      [some "NPS", some "DN", some "Outside Diameter (in)", some "Wall (in)"])).schedule = none ∧
    (parsePipeRows [[some "NPS", some "DN", some "Outside Diameter (in)", some "Wall (in)"],
      [some "4", some "100", some "4.500", some "0.237"]]).map
      (List.map (fun r => lookupVal r "schedule")) = .ok [some (.str "")] := by
  exact ⟨by decide, by decide⟩

/-- C4 (amended): every canonical field left unresolved by the header
resolver reads as `None` downstream and is stored as null in every
emitted record — except the pipe schedule field, which the source
defaults to the empty string (`get("schedule") or ""`), making the
derived pressure_series the empty string as well.  An unresolved column
never raises: its cell reads as `None`, on which both pipelines' integer
coercions return normally. -/
theorem unresolved_fields_null_except_schedule :
    (∀ (rc : Option ℤ) (ft fc : Option String) (m : FlangeColMap)
      (vals : List RawCell) (r : Rec),
      flangeRow rc ft fc m vals = .ok (some r) →
      (m.dn = none → lookupVal r "dn_mm" = some .null)
      ∧ (m.bore = none → lookupVal r "bore_inch" = some .null)
      ∧ (m.od = none → lookupVal r "od_inch" = some .null)
      ∧ (m.thickness = none → lookupVal r "thickness_inch" = some .null)
      ∧ (m.hub_dia = none → lookupVal r "hub_diameter_inch" = some .null)
      ∧ (m.hub_len = none → lookupVal r "hub_length_inch" = some .null)
      ∧ (m.bc = none → lookupVal r "bolt_circle_inch" = some .null)
      ∧ (m.bolt_hole_dia = none → lookupVal r "bolt_hole_diameter_inch" = some .null)
      ∧ (m.num_bolts = none → lookupVal r "number_of_bolts" = some .null)
      ∧ (m.bolt_size = none → lookupVal r "bolt_size_inch" = some .null)
      ∧ (m.weight = none → lookupVal r "weight_kg" = some .null))
    ∧ (∀ (m : PipeColMap) (vals : List RawCell) (r : Rec),
      pipeRow m vals = .ok (some r) →
      (m.dn = none → lookupVal r "dn_mm" = some .null)
      ∧ (m.od_in = none → lookupVal r "od_inch" = some .null)
      ∧ (m.od_mm = none → lookupVal r "od_mm" = some .null)
      ∧ (m.wall_in = none → lookupVal r "wall_thickness_inch" = some .null)
      ∧ (m.wall_mm = none → lookupVal r "wall_thickness_mm" = some .null)
      ∧ (m.wt_lb_ft = none → lookupVal r "weight_lb_per_ft" = some .null)
      ∧ (m.wt_kg_m = none → lookupVal r "weight_kg_per_m" = some .null)
      ∧ (m.schedule = none →
          lookupVal r "schedule" = some (.str "") ∧
          lookupVal r "pressure_series" = some (.str ""))) := by
  constructor
  · intro rc ft fc m vals r h
    rcases flangeRow_eq_some rc ft fc m vals r h with
      ⟨npsRaw, dn, nb, -, -, hdn, hnb, rfl⟩
    refine ⟨?_, fun hm => by rw [hm]; rfl, fun hm => by rw [hm]; rfl,
      fun hm => by rw [hm]; rfl, fun hm => by rw [hm]; rfl, fun hm => by rw [hm]; rfl,
      fun hm => by rw [hm]; rfl, fun hm => by rw [hm]; rfl, ?_,
      fun hm => by rw [hm]; rfl, fun hm => by rw [hm]; rfl⟩
    · intro hm
      rw [hm] at hdn
      have h2 : (PyRes.ok none : PyRes (Option ℤ)) = .ok dn := hdn
      rw [← PyRes.ok.inj h2]
      rfl
    · intro hm
      rw [hm] at hnb
      have h2 : (PyRes.ok none : PyRes (Option ℤ)) = .ok nb := hnb
      rw [← PyRes.ok.inj h2]
      rfl
  · intro m vals r h
    rcases pipeRow_eq_some m vals r h with ⟨npsRaw, dn, -, -, hdn, rfl⟩
    refine ⟨?_, fun hm => by rw [hm]; rfl, fun hm => by rw [hm]; rfl,
      fun hm => by rw [hm]; rfl, fun hm => by rw [hm]; rfl, fun hm => by rw [hm]; rfl,
      fun hm => by rw [hm]; rfl, fun hm => by rw [hm]; exact ⟨rfl, rfl⟩⟩
    · intro hm
      rw [hm] at hdn
      have h2 : (PyRes.ok none : PyRes (Option ℤ)) = .ok dn := hdn
      rw [← PyRes.ok.inj h2]
      rfl

/-- C4 witness: the theorem applied to a one-cell pipe row whose map
resolves only nps. -/
theorem unresolved_fields_null_except_schedule_w :
    lookupVal (pipeRecOf (pyFloat? (stripStr (removeAllChar "4" '"'))) none
      (toFloatM none) (toFloatM none) (pyOrStr none "")
      (toFloatM none) (toFloatM none) (toFloatM none) (toFloatM none)
      (stripStr "4")) "schedule" = some (.str "") ∧
    lookupVal (pipeRecOf (pyFloat? (stripStr (removeAllChar "4" '"'))) none
      (toFloatM none) (toFloatM none) (pyOrStr none "")
      (toFloatM none) (toFloatM none) (toFloatM none) (toFloatM none)
      (stripStr "4")) "pressure_series" = some (.str "") :=
  (unresolved_fields_null_except_schedule.2 { nps := some 0 } [some "4"] _
    rfl).2.2.2.2.2.2.2 rfl

/-- C1 counterexample: in the header `["NPS", "DN", "Nominal Wall"]`,
columns 0 and 2 both satisfy the nps rule, yet the resolver maps nps to
column 2, not column 0: a later matching column overwrites the earlier
mapping, refuting first-match-wins per field. -/
theorem flange_resolver_overwrites :
    classifyFlange "NPS" = some .nps ∧
    classifyFlange "Nominal Wall" = some .nps ∧
    (resolveFlangeHeader ["NPS", "DN", "Nominal Wall"]).nps = some 2 ∧
    (resolveFlangeHeader ["NPS", "DN", "Nominal Wall"]).nps ≠ some 0 := by
  decide

/-- C1 (amended): per column the first matching rule of the chain is
applied, but across columns the last matching column wins per field: if
column `h1.length` matches field `f`, an earlier column also matches
`f`, and no later column does, the resolver maps `f` to column
`h1.length`, overwriting the earlier assignment — in both schemas. -/
theorem resolver_last_match_wins :
    (∀ (h1 : List String) (cj : String) (h2 : List String) (f : FlangeField),
      classifyFlange cj = some f →
      (∃ ci ∈ h1, classifyFlange ci = some f) →
      (∀ c ∈ h2, classifyFlange c ≠ some f) →
      (resolveFlangeHeader (h1 ++ cj :: h2)).fieldIdx f = some h1.length)
    ∧ (∀ (h1 : List String) (cj : String) (h2 : List String) (f : PipeField),
      classifyPipe cj = some f →
      (∃ ci ∈ h1, classifyPipe ci = some f) →
      (∀ c ∈ h2, classifyPipe c ≠ some f) →
      (resolvePipeHeader (h1 ++ cj :: h2)).fieldIdx f = some h1.length) := by
  constructor
  · intro h1 cj h2 f hcj _hbefore hafter
    unfold resolveFlangeHeader
    rw [resolveFlangeAux_eq_gen, resolveGen_append]
    simp only [resolveGen, hcj]
    rw [resolveGen_skip classifyFlange FlangeColMap.setIdx FlangeColMap.fieldIdx
      (fun m f g i h => flangeFieldIdx_setIdx_ne m h i) h2 _ _ f hafter]
    rw [flangeFieldIdx_setIdx_self]
    simp
  · intro h1 cj h2 f hcj _hbefore hafter
    unfold resolvePipeHeader
    rw [resolvePipeAux_eq_gen, resolveGen_append]
    simp only [resolveGen, hcj]
    rw [resolveGen_skip classifyPipe PipeColMap.setIdx PipeColMap.fieldIdx
      (fun m f g i h => pipeFieldIdx_setIdx_ne m h i) h2 _ _ f hafter]
    rw [pipeFieldIdx_setIdx_self]
    simp

/-- C1 witness: the amended theorem at a concrete header with an earlier
and a later nps-matching column. -/
theorem resolver_last_match_wins_w :
    (resolveFlangeHeader (["NPS", "DN"] ++ "Nominal Wall" :: ["OD"])).fieldIdx .nps =
      some 2 ∧
    (resolvePipeHeader (["NPS", "DN"] ++ "Nominal Wall (in)" :: ["OD"])).fieldIdx .nps =
      some 2 :=
  ⟨resolver_last_match_wins.1 ["NPS", "DN"] "Nominal Wall" ["OD"] .nps (by decide)
    ⟨"NPS", by decide, by decide⟩ (by decide),
   resolver_last_match_wins.2 ["NPS", "DN"] "Nominal Wall (in)" ["OD"] .nps (by decide)
    ⟨"NPS", by decide, by decide⟩ (by decide)⟩

/-- C3: if one column's first matching rule is pipe field `f` and
another's is a different field `g` (e.g. the inch-qualified and
mm-qualified outside-diameter or wall columns), the resolver assigns
`f` and `g` column indices that are both resolved and distinct; and the
cell `"outside diameter (mm)"` triggers the mm rule — it does not
satisfy the inch rule, which is checked first. -/
theorem pipe_resolver_distinct_units :
    (∀ (header : List String) (f g : PipeField), f ≠ g →
      (∃ j c, header.get? j = some c ∧ classifyPipe c = some f) →
      (∃ j c, header.get? j = some c ∧ classifyPipe c = some g) →
      ∃ a b, (resolvePipeHeader header).fieldIdx f = some a ∧
        (resolvePipeHeader header).fieldIdx g = some b ∧ a ≠ b) ∧
    classifyPipe "outside diameter (mm)" = some .odMm := by
  refine ⟨?_, by decide⟩
  intro header f g hfg hf hg
  obtain ⟨jf, cf, hjf, hcf⟩ := hf
  obtain ⟨jg, cg, hjg, hcg⟩ := hg
  have hgeneq : resolvePipeHeader header =
      resolveGen classifyPipe PipeColMap.setIdx 0 {} header := by
    unfold resolvePipeHeader
    exact resolvePipeAux_eq_gen header 0 {}
  have hne := fun (m : PipeColMap) (f g : PipeField) (i : ℕ) (h : g ≠ f) =>
    pipeFieldIdx_setIdx_ne m h i
  have hself := pipeFieldIdx_setIdx_self
  have hfs : ((resolvePipeHeader header).fieldIdx f).isSome := by
    rw [hgeneq]
    exact resolveGen_hit classifyPipe PipeColMap.setIdx PipeColMap.fieldIdx hself hne
      header 0 {} f ⟨cf, List.get?_mem hjf, hcf⟩
  have hgs : ((resolvePipeHeader header).fieldIdx g).isSome := by
    rw [hgeneq]
    exact resolveGen_hit classifyPipe PipeColMap.setIdx PipeColMap.fieldIdx hself hne
      header 0 {} g ⟨cg, List.get?_mem hjg, hcg⟩
  obtain ⟨a, ha⟩ := Option.isSome_iff_exists.mp hfs
  obtain ⟨b, hb⟩ := Option.isSome_iff_exists.mp hgs
  refine ⟨a, b, ha, hb, ?_⟩
  intro hab
  subst hab
  have hsf := resolveGen_sound classifyPipe PipeColMap.setIdx PipeColMap.fieldIdx hself hne
    header 0 {} f a (by rw [← hgeneq]; exact ha)
  have hsg := resolveGen_sound classifyPipe PipeColMap.setIdx PipeColMap.fieldIdx hself hne
    header 0 {} g a (by rw [← hgeneq]; exact hb)
  rcases hsf with h0 | ⟨j, c, hj, hkj, hcj⟩
  · rw [pipeFieldIdx_empty] at h0; cases h0
  rcases hsg with h0 | ⟨j', c', hj', hkj', hcj'⟩
  · rw [pipeFieldIdx_empty] at h0; cases h0
  have hjj : j = j' := by omega
  subst hjj
  rw [hj] at hj'
  injection hj' with hcc
  subst hcc
  rw [hcj] at hcj'
  injection hcj' with hff
  exact hfg hff

/-- C3 witness: the theorem on a header with both outside-diameter
units; the two fields land on distinct columns. -/
theorem pipe_resolver_distinct_units_w :
    ∃ a b,
      (resolvePipeHeader
        ["nps", "dn", "outside diameter (in)", "outside diameter (mm)"]).fieldIdx
        .odIn = some a ∧
      (resolvePipeHeader
        ["nps", "dn", "outside diameter (in)", "outside diameter (mm)"]).fieldIdx
        .odMm = some b ∧ a ≠ b :=
  pipe_resolver_distinct_units.1 _ .odIn .odMm (by decide)
    ⟨2, "outside diameter (in)", by decide, by decide⟩
    ⟨3, "outside diameter (mm)", by decide, by decide⟩

set_option maxRecDepth 8000 in
/-- C7 counterexample: row normalization is not exception-free.  An
accepted flange table whose dn cell reads `"inf"` aborts with the
uncaught OverflowError of `int(float("inf"))`, and an accepted pipe
table whose DN cell is a 400-digit numeral passes the isdigit guard,
rounds to an infinite double, and aborts the same way. -/
theorem normalization_overflow_crash :
    looksLikeFlangeTable [[some "NPS", some "DN", some "Class", some "Bolt Circle (in)"],
      [some "2", some "inf", some "150", some "4.75"]] = true ∧
    parseFlangeRows [[some "NPS", some "DN", some "Class", some "Bolt Circle (in)"],
      [some "2", some "inf", some "150", some "4.75"]] none none none =
      .exc "OverflowError" ∧
    looksLikePipeTable [[some "NPS", some "DN", some "Outside Diameter (in)", some "Wall (in)"],
      [some "4", some (String.mk (List.replicate 400 (Char.ofNat 57))),
        some "4.500", some "0.237"]] = true ∧
    parsePipeRows [[some "NPS", some "DN", some "Outside Diameter (in)", some "Wall (in)"],
      [some "4", some (String.mk (List.replicate 400 (Char.ofNat 57))),
        some "4.500", some "0.237"]] = .exc "OverflowError" := by
  exact ⟨by decide, by decide, by decide, by decide⟩

/-- C7 (amended): when row normalization returns, it emits at most one
record per data row and drops a row exactly when its NPS cell reads as
missing (unresolved column, out of bounds, NaN) or empty, in both
pipelines; every float coercion is total, but normalization is not
exception-free: a flange row can abort only out of its two `to_int`
calls, which raise only the OverflowError of an infinite-parsing
comma-stripped cell, and a pipe row can abort only out of the unguarded
dn coercion, on a cell passing its isdigit guard. -/
theorem normalization_row_drop_overflow_only :
    (∀ (df : List (List RawCell)) (rc : Option ℤ) (ft fc : Option String)
      (rows : List Rec), parseFlangeRows df rc ft fc = .ok rows →
      rows.length ≤ df.length - 1)
    ∧ (∀ (rc : Option ℤ) (ft fc : Option String) (m : FlangeColMap)
      (vals : List RawCell), flangeRow rc ft fc m vals = .ok none ↔
        getCell vals m.nps = none ∨ getCell vals m.nps = some "")
    ∧ (∀ (rc : Option ℤ) (ft fc : Option String) (m : FlangeColMap)
      (vals : List RawCell) (e : String), flangeRow rc ft fc m vals = .exc e →
        toIntM (getCell vals m.dn) = .exc e ∨
        toIntM (getCell vals m.num_bolts) = .exc e)
    ∧ (∀ (x : Option String) (e : String), toIntM x = .exc e →
        e = "OverflowError" ∧ ∃ s b, x = some s ∧
          pyFloat? (stripStr (removeAllChar s ',')) = some (.inf b))
    ∧ (∀ (df : List (List RawCell)) (rows : List Rec),
      parsePipeRows df = .ok rows → rows.length ≤ df.length - 1)
    ∧ (∀ (m : PipeColMap) (vals : List RawCell),
      pipeRow m vals = .ok none ↔
        getCell vals m.nps = none ∨ getCell vals m.nps = some "")
    ∧ (∀ (m : PipeColMap) (vals : List RawCell) (e : String),
      pipeRow m vals = .exc e → pyDnInt (getCell vals m.dn) = .exc e)
    ∧ (∀ (x : Option String) (e : String), pyDnInt x = .exc e →
        ∃ s, x = some s ∧ (s ≠ "" && pyIsdigit (removeFirstChar s '.')) = true) :=
  ⟨fun df rc ft fc rows h => parseFlangeRows_length_le df rc ft fc rows h,
   fun rc ft fc m vals => flangeRow_eq_none rc ft fc m vals,
   fun rc ft fc m vals e h => flangeRow_exc rc ft fc m vals e h,
   fun x e h => toIntM_exc x e h,
   fun df rows h => parsePipeRows_length_le df rows h,
   fun m vals => pipeRow_eq_none m vals,
   fun m vals e h => pipeRow_exc m vals e h,
   fun x e h => pyDnInt_exc x e h⟩

/-- C7 witness: the amended theorem at a dropped row (unresolved NPS
column), at a flange row whose dn cell reads `"inf"` (the abort comes
from `to_int`), and at the error source classification for `"inf"`. -/
theorem normalization_row_drop_overflow_only_w :
    flangeRow none none none {} [some "2"] = .ok none ∧
    (toIntM (getCell [some "2", some "inf"]
        ({ nps := some 0, dn := some 1 } : FlangeColMap).dn) = .exc "OverflowError" ∨
      toIntM (getCell [some "2", some "inf"]
        ({ nps := some 0, dn := some 1 } : FlangeColMap).num_bolts) =
        .exc "OverflowError") ∧
    ("OverflowError" = "OverflowError" ∧ ∃ s b, (some "inf" : Option String) = some s ∧
      pyFloat? (stripStr (removeAllChar s ',')) = some (.inf b)) :=
  ⟨(normalization_row_drop_overflow_only.2.1 none none none {} [some "2"]).mpr
      (Or.inl rfl),
   normalization_row_drop_overflow_only.2.2.1 none none none
     { nps := some 0, dn := some 1 } [some "2", some "inf"] "OverflowError" (by decide),
   normalization_row_drop_overflow_only.2.2.2.1 (some "inf") "OverflowError" (by decide)⟩

/-- C8: deduplication retains within each key group exactly the first
record of the input (`find?` by its key returns it), preserves input
order (the output is a sublist), leaves lists with pairwise-distinct
keys unchanged, and is idempotent.  The key function is arbitrary — it
covers both pipelines' natural-key tuples, whose null components compare
equal to null. -/
theorem dedupe_first_wins_idempotent {α κ : Type} [DecidableEq κ]
    (key : α → κ) (l : List α) :
    dedupeBy key (dedupeBy key l) = dedupeBy key l
    ∧ ((l.map key).Nodup → dedupeBy key l = l)
    ∧ (dedupeBy key l).Sublist l
    ∧ ((dedupeBy key l).map key).Nodup
    ∧ (∀ y ∈ dedupeBy key l, l.find? (fun z => decide (key z = key y)) = some y) := by
  refine ⟨dedupeAux_idem key [] l, ?_, dedupeAux_sublist key [] l,
    dedupeAux_keys_nodup key [] l, fun y hy => dedupeAux_find_first key [] l y hy⟩
  intro hnd
  exact dedupeAux_nodup_noop key [] l hnd (fun y _ h => absurd h (List.not_mem_nil _))

/-- C8 witness: two flange records sharing a natural key with null
components collapse to the first; the theorem is applied for idempotence
and for the no-op on the deduplicated result. -/
theorem dedupe_first_wins_idempotent_w :
    dedupeBy flangeKey
      [[("nps_inch", Val.null), ("rating_class", Val.null), ("type", Val.str "WN"),
        ("facing", Val.str "RF"), ("od_inch", Val.rat (mkRat 6 1))],
       [("nps_inch", Val.null), ("rating_class", Val.null), ("type", Val.str "WN"),
        ("facing", Val.str "RF"), ("od_inch", Val.rat (mkRat 7 1))]] =
      [[("nps_inch", Val.null), ("rating_class", Val.null), ("type", Val.str "WN"),
        ("facing", Val.str "RF"), ("od_inch", Val.rat (mkRat 6 1))]] ∧
    dedupeBy flangeKey (dedupeBy flangeKey
      [[("nps_inch", Val.null), ("rating_class", Val.null), ("type", Val.str "WN"),
        ("facing", Val.str "RF"), ("od_inch", Val.rat (mkRat 6 1))],
       [("nps_inch", Val.null), ("rating_class", Val.null), ("type", Val.str "WN"),
        ("facing", Val.str "RF"), ("od_inch", Val.rat (mkRat 7 1))]]) =
      dedupeBy flangeKey
      [[("nps_inch", Val.null), ("rating_class", Val.null), ("type", Val.str "WN"),
        ("facing", Val.str "RF"), ("od_inch", Val.rat (mkRat 6 1))],
       [("nps_inch", Val.null), ("rating_class", Val.null), ("type", Val.str "WN"),
        ("facing", Val.str "RF"), ("od_inch", Val.rat (mkRat 7 1))]] ∧
    dedupeBy flangeKey
      [[("nps_inch", Val.null), ("rating_class", Val.null), ("type", Val.str "WN"),
        ("facing", Val.str "RF"), ("od_inch", Val.rat (mkRat 6 1))]] =
      [[("nps_inch", Val.null), ("rating_class", Val.null), ("type", Val.str "WN"),
        ("facing", Val.str "RF"), ("od_inch", Val.rat (mkRat 6 1))]] :=
  ⟨by decide, (dedupe_first_wins_idempotent flangeKey _).1,
   (dedupe_first_wins_idempotent flangeKey _).2.1 (by decide)⟩

/-- Reading any key other than the two provenance keys is unaffected by
the driver's table tagging. -/
theorem lookupVal_tagged (r0 : Rec) (i : ℕ) (k : String)
    (h1 : k ≠ "b165_table") (h2 : k ≠ "b165_page") :
    lookupVal (setKey (setKey r0 "b165_table" (.str ("Table_" ++ toString i)))
      "b165_page" .null) k = lookupVal r0 k := by
  rw [lookupVal_setKey_ne _ h2, lookupVal_setKey_ne _ h1]

/-- C10: whenever the flange driver returns a batch, it parsed every
table with default overrides, so every output record has
`rating_class = null`, `type = "WN"`, `facing = "RF"`; hence the dedup
key is determined by `nps_inch` alone and the final batch holds at most
one record per distinct `nps_inch` value. -/
theorem flange_driver_defaults_nps_unique (tables : List (List (List RawCell)))
    (out : List Rec) (hout : flangeDriver tables = .ok out) :
    (∀ r ∈ out,
      lookupVal r "rating_class" = some .null ∧
      lookupVal r "type" = some (.str "WN") ∧
      lookupVal r "facing" = some (.str "RF")) ∧
    (out.map (fun r => lookupVal r "nps_inch")).Nodup := by
  unfold flangeDriver at hout
  cases hloop : flangeTablesLoop tables.enum with
  | exc e =>
      rw [hloop] at hout
      exact PyRes.noConfusion hout
  | ok L =>
      rw [hloop] at hout
      have h2 : dedupeBy flangeKey L = out := PyRes.ok.inj hout
      subst h2
      have hconst : ∀ r ∈ dedupeBy flangeKey L,
          lookupVal r "rating_class" = some .null ∧
          lookupVal r "type" = some (.str "WN") ∧
          lookupVal r "facing" = some (.str "RF") := by
        intro r hr
        have hr1 : r ∈ L := (dedupeAux_sublist flangeKey [] L).subset hr
        rcases mem_flangeTablesLoop tables.enum L r hloop hr1 with
          ⟨i, df, rows, hp, htag⟩
        rcases List.mem_map.mp htag with ⟨r0, hr0, rfl⟩
        rcases mem_parseFlangeRows hp hr0 with ⟨m, vals, hrow⟩
        rcases flangeRow_eq_some none none none m vals r0 hrow with
          ⟨npsRaw, dn, nb, -, -, -, -, rfl⟩
        refine ⟨?_, ?_, ?_⟩ <;>
          (rw [lookupVal_tagged _ _ _ (by decide) (by decide)]; rfl)
      refine ⟨hconst, ?_⟩
      have hkeys : ((dedupeBy flangeKey L).map flangeKey).Nodup :=
        dedupeAux_keys_nodup flangeKey [] L
      have hpw : (dedupeBy flangeKey L).Pairwise
          (fun a b => flangeKey a ≠ flangeKey b) :=
        List.pairwise_map.mp hkeys
      refine List.pairwise_map.mpr (hpw.imp_of_mem ?_)
      intro a b ha hb hne heq
      apply hne
      obtain ⟨ha1, ha2, ha3⟩ := hconst a ha
      obtain ⟨hb1, hb2, hb3⟩ := hconst b hb
      unfold flangeKey
      rw [heq, ha1, hb1, ha2, hb2, ha3, hb3]

/-- C10 witness: the theorem applied to the one-table batch of the
end-to-end scenario, at its unique output record. -/
theorem flange_driver_defaults_nps_unique_w :
    lookupVal
      [("standard", Val.str "ASME B16.5-2022"), ("nps_inch", Val.rat (mkRat 2 1)),
       ("dn_mm", Val.null), ("rating_class", Val.null), ("type", Val.str "WN"),
       ("facing", Val.str "RF"), ("bore_inch", Val.null), ("od_inch", Val.null),
       ("thickness_inch", Val.null), ("hub_diameter_inch", Val.null),
       ("hub_length_inch", Val.null), ("bolt_circle_inch", Val.rat (mkRat 19 4)),
       ("bolt_hole_diameter_inch", Val.null), ("number_of_bolts", Val.null),
       ("bolt_size_inch", Val.null), ("weight_kg", Val.null),
       ("flange_category", Val.str "CS"), ("b165_table", Val.str "Table_0"),
       ("b165_page", Val.null), ("source_file", Val.str "ASME B16.5.pdf"),
       ("is_active", Val.bool true)] "rating_class" = some .null ∧
    (([
      [("standard", Val.str "ASME B16.5-2022"), ("nps_inch", Val.rat (mkRat 2 1)),
       ("dn_mm", Val.null), ("rating_class", Val.null), ("type", Val.str "WN"),
       ("facing", Val.str "RF"), ("bore_inch", Val.null), ("od_inch", Val.null),
       ("thickness_inch", Val.null), ("hub_diameter_inch", Val.null),
       ("hub_length_inch", Val.null), ("bolt_circle_inch", Val.rat (mkRat 19 4)),
       ("bolt_hole_diameter_inch", Val.null), ("number_of_bolts", Val.null),
       ("bolt_size_inch", Val.null), ("weight_kg", Val.null),
       ("flange_category", Val.str "CS"), ("b165_table", Val.str "Table_0"),
       ("b165_page", Val.null), ("source_file", Val.str "ASME B16.5.pdf"),
       ("is_active", Val.bool true)]] : List Rec).map
      (fun r => lookupVal r "nps_inch")).Nodup := by
  have h := flange_driver_defaults_nps_unique
    [[[some "NPS", some "Class", some "OD (in)", some "Bolt Circle (in)"],
      [some "2", some "150", some "6.00", some "4.75"]]]
    [[("standard", Val.str "ASME B16.5-2022"), ("nps_inch", Val.rat (mkRat 2 1)),
      ("dn_mm", Val.null), ("rating_class", Val.null), ("type", Val.str "WN"),
      ("facing", Val.str "RF"), ("bore_inch", Val.null), ("od_inch", Val.null),
      ("thickness_inch", Val.null), ("hub_diameter_inch", Val.null),
      ("hub_length_inch", Val.null), ("bolt_circle_inch", Val.rat (mkRat 19 4)),
      ("bolt_hole_diameter_inch", Val.null), ("number_of_bolts", Val.null),
      ("bolt_size_inch", Val.null), ("weight_kg", Val.null),
      ("flange_category", Val.str "CS"), ("b165_table", Val.str "Table_0"),
      ("b165_page", Val.null), ("source_file", Val.str "ASME B16.5.pdf"),
      ("is_active", Val.bool true)]] (by decide)
  exact ⟨(h.1 _ (by decide)).1, h.2⟩

/-- C2 (code behavior at the claimed scenario): the flange driver on the
single raw table with header `["NPS","Class","OD (in)","Bolt Circle (in)"]`
and data row `["2","150","6.00","4.75"]` emits exactly one record with
`nps_inch = 2`, `bolt_circle_inch = 4.75`, `type = "WN"`, `facing = "RF"`,
`rating_class = null` — but `od_inch = null`, not `6.0`: the classifier
accepts the "od" token, and the parser's docstring assumes an `OD (in)`
column, yet the od rule requires the substring `"outside"`, which
`"OD (in)"` lacks. -/
theorem flange_scenario_od_null :
    looksLikeFlangeTable [[some "NPS", some "Class", some "OD (in)", some "Bolt Circle (in)"],
      [some "2", some "150", some "6.00", some "4.75"]] = true ∧
    classifyFlange "OD (in)" = none ∧
    flangeDriver [[[some "NPS", some "Class", some "OD (in)", some "Bolt Circle (in)"],
      [some "2", some "150", some "6.00", some "4.75"]]] =
    .ok [[("standard", Val.str "ASME B16.5-2022"), ("nps_inch", Val.rat (mkRat 2 1)),
      ("dn_mm", Val.null), ("rating_class", Val.null), ("type", Val.str "WN"),
      ("facing", Val.str "RF"), ("bore_inch", Val.null), ("od_inch", Val.null),
      ("thickness_inch", Val.null), ("hub_diameter_inch", Val.null),
      ("hub_length_inch", Val.null), ("bolt_circle_inch", Val.rat (mkRat 19 4)),
      ("bolt_hole_diameter_inch", Val.null), ("number_of_bolts", Val.null),
      ("bolt_size_inch", Val.null), ("weight_kg", Val.null),
      ("flange_category", Val.str "CS"), ("b165_table", Val.str "Table_0"),
      ("b165_page", Val.null), ("source_file", Val.str "ASME B16.5.pdf"),
      ("is_active", Val.bool true)]] := by
  exact ⟨by decide, by decide, by decide⟩

end SmartMetal
